import Mathlib

/-!
# Mini image gallery: the in-memory image store and its HTTP handlers

A shallow embedding of `src/backend/server.js`.

* JavaScript numbers that hold ids, sizes and counts are modelled as exact
  integers (`Nat`, `Int`); this agrees with IEEE doubles below `2 ^ 53`.
* A quotient or a product of numbers that need not be whole is the exact
  rational rounded to the nearest IEEE 754 double, ties to even, as the
  operators `/` and `*` of JavaScript compute it.
* The wall clock (`new Date().toISOString()`) and the outcome of the simulated
  image processing are inputs of the operations that read them.
* The store is passed explicitly: every mutating method returns its result
  together with the store after the call.
-/

namespace ImageGallery

/-! ## Data model -/

/-- One octet of a `Buffer`. -/
abbrev Byte := Fin 256

/-- The object `processImage` resolves with (server.js 105-108). -/
structure Dimensions where
  width : Nat
  height : Nat
deriving DecidableEq, Repr

/-- The object literal built by `ImageStore.add` (server.js 27-34).  The
property `dimensions` is absent (`none`) on a freshly built record and is
assigned by the upload handler (server.js 175). -/
structure ImageRecord where
  id : Nat
  filename : String
  mimeType : String
  data : List Byte
  uploadedAt : String
  size : Nat
  dimensions : Option Dimensions
deriving DecidableEq, Repr

/-- The argument object of `ImageStore.add` (server.js 167-172): the
properties `filename`, `mimetype`, `buffer` and `size`, each supplied by the
caller. -/
structure ImageInput where
  filename : String
  mimetype : String
  buffer : List Byte
  size : Nat
deriving DecidableEq, Repr

/-- The object literal built by `ImageStore.getAll` for each record
(server.js 44-51).  It has six properties; `data` is not one of them. -/
structure PublicView where
  id : Nat
  filename : String
  mimeType : String
  size : Nat
  uploadedAt : String
  dimensions : Option Dimensions
deriving DecidableEq, Repr

/-- The two fields of `class ImageStore` (server.js 20-24). -/
structure ImageStore where
  images : List ImageRecord
  nextId : Nat
deriving DecidableEq, Repr

/-! ## `parseInt` with the radix argument omitted (ECMA-262, 19.2.5) -/

/-- Code points of `StrWhiteSpaceChar`: white space and line terminators. -/
def isStrWhiteSpaceChar (c : Char) : Bool :=
  c.toNat ∈ [0x09, 0x0A, 0x0B, 0x0C, 0x0D, 0x20, 0xA0, 0x1680,
    0x2000, 0x2001, 0x2002, 0x2003, 0x2004, 0x2005, 0x2006, 0x2007,
    0x2008, 0x2009, 0x200A, 0x2028, 0x2029, 0x202F, 0x205F, 0x3000, 0xFEFF]

/-- Value of a character read as a digit, letters standing for 10 to 35. -/
def digitValue (c : Char) : Option Nat :=
  if c.toNat ≥ 48 ∧ c.toNat ≤ 57 then some (c.toNat - 48)
  else if c.toNat ≥ 97 ∧ c.toNat ≤ 122 then some (c.toNat - 97 + 10)
  else if c.toNat ≥ 65 ∧ c.toNat ≤ 90 then some (c.toNat - 65 + 10)
  else none

/-- Whether `c` is a digit of the given radix. -/
def isRadixDigit (radix : Nat) (c : Char) : Bool :=
  match digitValue c with
  | some v => decide (v < radix)
  | none => false

/-- Step 3-5 of `parseInt`: an optional sign is removed and remembered. -/
def splitSign : List Char → Int × List Char
  | '-' :: rest => (-1, rest)
  | '+' :: rest => (1, rest)
  | s => (1, s)

/-- Step 8-10 of `parseInt` without a radix argument: the radix is 10 unless
the text starts with `0x` or `0X`, which is removed and selects radix 16. -/
def splitRadix : List Char → Nat × List Char
  | '0' :: 'x' :: rest => (16, rest)
  | '0' :: 'X' :: rest => (16, rest)
  | s => (10, s)

/-- The mathematical value of a digit sequence in the given radix. -/
def digitsValue (radix : Nat) (ds : List Char) : Nat :=
  ds.foldl (fun acc c => acc * radix + (digitValue c).getD 0) 0

/-- The call `parseInt(id)` on a string; `none` stands for `NaN`.  Leading
white space is skipped, a sign is read, then the longest run of digits is
converted and everything after it is ignored. -/
def parseInt (input : String) : Option Int :=
  let trimmed := input.toList.dropWhile isStrWhiteSpaceChar
  let signed := splitSign trimmed
  let based := splitRadix signed.2
  let ds := based.2.takeWhile (isRadixDigit based.1)
  if ds.isEmpty then none else some (signed.1 * (digitsValue based.1 ds : Int))

/-! ## Array helpers -/

/-- The method `Array.prototype.findIndex`; `none` stands for `-1`. -/
def findIndex {α : Type} (p : α → Bool) : List α → Option Nat
  | [] => none
  | x :: xs => if p x then some 0 else (findIndex p xs).map (· + 1)

/-! ## `class ImageStore` (server.js 20-65) -/

/-- The constructor (server.js 21-24). -/
def ImageStore.new : ImageStore :=
  { images := [], nextId := 1 }

/-- The comparison `img.id === parseInt(id)` used by `get` and `delete`. -/
def idMatches (id : String) (img : ImageRecord) : Bool :=
  parseInt id == some (img.id : Int)

/-- The method `add(image)` (server.js 26-37); `now` is the time stamp read
from the clock.  Returns the new record and the store after the call. -/
def ImageStore.add (s : ImageStore) (image : ImageInput) (now : String) :
    ImageRecord × ImageStore :=
  let newImage : ImageRecord :=
    { id := s.nextId
      filename := image.filename
      mimeType := image.mimetype
      data := image.buffer
      uploadedAt := now
      size := image.size
      dimensions := none }
  (newImage, { images := s.images ++ [newImage], nextId := s.nextId + 1 })

/-- The method `get(id)` (server.js 39-41); `none` stands for `undefined`. -/
def ImageStore.get (s : ImageStore) (id : String) : Option ImageRecord :=
  s.images.find? (idMatches id)

/-- The projection applied by `getAll` to one record (server.js 44-51). -/
def toPublicView (img : ImageRecord) : PublicView :=
  { id := img.id
    filename := img.filename
    mimeType := img.mimeType
    size := img.size
    uploadedAt := img.uploadedAt
    dimensions := img.dimensions }

/-- The method `getAll()` (server.js 43-52). -/
def ImageStore.getAll (s : ImageStore) : List PublicView :=
  s.images.map toPublicView

/-- The method `delete(id)` (server.js 54-60): the removed record, or `none`
for `null`, together with the store after the call. -/
def ImageStore.delete (s : ImageStore) (id : String) :
    Option ImageRecord × ImageStore :=
  match findIndex (idMatches id) s.images with
  | some index => (s.images[index]?, { s with images := s.images.eraseIdx index })
  | none => (none, s)

/-- The method `getCount()` (server.js 62-64). -/
def ImageStore.getCount (s : ImageStore) : Nat :=
  s.images.length

/-! ## The upload middleware `multer` (server.js 70-83) -/

/-- The file part that a multipart request carries in its field `image`. -/
structure FilePart where
  originalname : String
  mimetype : String
  content : List Byte
deriving DecidableEq, Repr

/-- The object multer stores in `req.file` under memory storage: the part's
name and type, the buffered content, and `size`, the length of the buffer. -/
structure MulterFile where
  originalname : String
  mimetype : String
  buffer : List Byte
  size : Nat
deriving DecidableEq, Repr

/-- The errors the upload middleware passes to `next`. -/
inductive UploadError where
  /-- A `MulterError` whose code is `LIMIT_FILE_SIZE`. -/
  | limitFileSize
  /-- The plain `Error` created by the file filter, with its message. -/
  | filterError (message : String)
deriving DecidableEq, Repr

/-- The option `limits.fileSize` (server.js 73): the largest accepted file. -/
def fileSize : Nat := 3 * 1024 * 1024

/-- The array `allowedTypes` (server.js 76). -/
def allowedTypes : List String := ["image/jpeg", "image/png", "image/jpg"]

/-- The option `fileFilter` (server.js 75-82). -/
def fileFilter (file : FilePart) : Except UploadError Bool :=
  if allowedTypes.contains file.mimetype then .ok true
  else .error (.filterError "Only JPEG and PNG images are allowed!")

/-- The middleware `upload.single('image')`: the value left in `req.file`, or
the error passed on.  The filter runs when the part starts; the size limit is
checked while the content is buffered; a request without a file passes with
`req.file` undefined. -/
def uploadSingle (part : Option FilePart) : Except UploadError (Option MulterFile) :=
  match part with
  | none => .ok none
  | some file =>
    match fileFilter file with
    | .error e => .error e
    | .ok _ =>
      if file.content.length > fileSize then .error .limitFileSize
      else .ok (some
        { originalname := file.originalname
          mimetype := file.mimetype
          buffer := file.content
          size := file.content.length })

/-! ## Responses -/

/-- What a handler sends. -/
inductive Body where
  /-- The JSON object with `success: false` and `error`. -/
  | failure (error : String)
  /-- The JSON object with `success: true`, `data` and `message` sent by
  `POST /upload`. -/
  | uploaded (data : PublicView) (message : String)
  /-- The JSON object with `success: true`, `message` and `data`, an object
  whose only property `id` is `parseInt(req.params.id)`, sent by `DELETE`. -/
  | deleted (message : String) (id : Option Int)
  /-- Raw bytes with the headers `Content-Type` and `Cache-Control`. -/
  | imageData (contentType : String) (cacheControl : String) (data : List Byte)
  /-- The JSON object with `success: true`, `data` and `count` sent by
  `GET /images`. -/
  | imageList (data : List PublicView) (count : Nat)
  /-- The JSON object with `success: true` and `data`, an object with
  `totalImages`, `totalSize` and `averageSize`, sent by `GET /stats`; the
  number `averageSize` is given by its exact value. -/
  | stats (totalImages : Nat) (totalSize : Nat) (averageSize : Rat)
  /-- The error page written by the framework when no error-handling
  middleware takes an error. -/
  | defaultErrorPage
deriving DecidableEq, Repr

/-- A response: status code and body. -/
structure Response where
  status : Nat
  body : Body
deriving DecidableEq, Repr

/-! ## The application stack (server.js 9-262)

Express keeps the middleware and routes of an application in one stack, in the
order of the calls that registered them.  A request walks the stack forward.
When a layer passes an error to `next`, the walk goes on from the layer after
it and stops at the first error-handling middleware (a function of four
arguments); layers before the failing one are not visited again.  When the end
of the stack is reached with the error still pending, the framework answers
with its default error page, status 500 for an error object without a
`status` or `statusCode` property. -/

/-- One entry of the application stack. -/
inductive Layer where
  /-- Registered by `app.use` with a function of three arguments. -/
  | middleware (name : String)
  /-- Registered by `app.use` with a function of four arguments. -/
  | errorHandler
  /-- Registered by `app.get`, `app.post` or `app.delete`. -/
  | route (method : String) (path : String)
deriving DecidableEq, Repr

/-- The stack of `app`, in the order of registration in server.js. -/
def appStack : List Layer :=
  [ .middleware "cors",              -- line 9
    .middleware "express.json",      -- line 16
    .middleware "express.static",    -- line 17
    .errorHandler,                   -- line 86
    .route "GET" "/images",          -- line 116
    .route "GET" "/images/:id",      -- line 133
    .route "POST" "/upload",         -- line 155
    .route "DELETE" "/images/:id",   -- line 207
    .route "GET" "/stats",           -- line 238
    .route "GET" "/health" ]         -- line 253

/-- The error-handling middleware (server.js 86-99). -/
def errorMiddleware (error : UploadError) : Response :=
  match error with
  | .limitFileSize =>
    { status := 400, body := .failure "File size too large. Maximum 3MB allowed." }
  | .filterError message =>
    { status := 400, body := .failure message }

/-- The answer of the framework to an error no middleware has taken. -/
def finalHandler (_error : UploadError) : Response :=
  { status := 500, body := .defaultErrorPage }

/-- The layers registered after `layer`. -/
def layersAfter (layer : Layer) (stack : List Layer) : List Layer :=
  (stack.dropWhile (fun l => l != layer)).drop 1

/-- The response to an error passed to `next` by `layer`: the first
error-handling middleware registered after it, or else the default page. -/
def dispatchError (stack : List Layer) (layer : Layer) (error : UploadError) : Response :=
  match (layersAfter layer stack).find? (fun l => l == Layer.errorHandler) with
  | some _ => errorMiddleware error
  | none => finalHandler error

/-! ## JavaScript number arithmetic (IEEE 754 binary64)

A double is `m * 2 ^ (e - 52)` with a significand `m < 2 ^ 53` and an exponent
`e` from `-1022` to `1023`.  The operators `/` and `*` return the double
nearest to the exact result, a tie going to the even significand.  The
operands that occur here are whole numbers and draws of `Math.random()`, so a
result never overflows. -/

/-- The quotient `n / d` rounded to the nearest whole number, a tie going to
the even one. -/
def roundHalfEven (n d : Nat) : Nat :=
  let k := n / d
  let r := n % d
  if 2 * r < d then k
  else if d < 2 * r then k + 1
  else if k % 2 = 0 then k else k + 1

/-- The binary exponent of the quotient `a / b` of two positive whole numbers:
the `e` with `2 ^ e ≤ a / b < 2 ^ (e + 1)`. -/
def quotientExponent (a b : Nat) : Int :=
  let e0 : Int := (Nat.log2 a : Int) - (Nat.log2 b : Int)
  if b * 2 ^ e0.toNat ≤ a * 2 ^ (-e0).toNat then e0 else e0 - 1

/-- The double nearest to the exact quotient `a / b`, for `b > 0`: the
quotient is scaled so that one unit is the spacing of the doubles around it
(`2 ^ (e - 52)`, and `2 ^ (-1074)` below the normal range), rounded to a whole
number of units, ties to even, and scaled back. -/
def nearestDouble (a b : Nat) : Rat :=
  if a = 0 then 0
  else
    let e := max (quotientExponent a b) (-1022)
    let shift : Int := 52 - e
    let m := roundHalfEven (a * 2 ^ shift.toNat) (b * 2 ^ (-shift).toNat)
    (m : Rat) * (2 : Rat) ^ (-shift)

/-- A value `Math.random()` can return, written `significand / 2 ^ scale`. -/
structure RandomDraw where
  significand : Nat
  scale : Nat
deriving DecidableEq, Repr

/-- The doubles of the interval from 0 (included) to 1 (excluded) are the
numbers `significand / 2 ^ scale` with `significand < 2 ^ 53` and
`53 ≤ scale ≤ 1074`: the largest is `(2 ^ 53 - 1) / 2 ^ 53`, the smallest
positive one is `1 / 2 ^ 1074`. -/
def RandomDraw.valid (d : RandomDraw) : Prop :=
  d.significand < 2 ^ 53 ∧ 53 ≤ d.scale ∧ d.scale ≤ 1074

/-- The number a draw stands for. -/
def RandomDraw.value (d : RandomDraw) : Rat :=
  (d.significand : Rat) / (2 : Rat) ^ d.scale

/-- The product `draw * k` of a draw and a whole number, as the operator `*`
computes it: the exact product rounded to the nearest double. -/
def numberTimes (d : RandomDraw) (k : Nat) : Rat :=
  nearestDouble (d.significand * k) (2 ^ d.scale)

/-! ## Route handlers -/

/-- The assignment `newImage.dimensions = dimensions` (server.js 175).
The object `newImage` is the one `add` has just pushed, so the assignment is
seen through the last element of `images`. -/
def assignDimensions (s : ImageStore) (dimensions : Dimensions) : ImageStore :=
  match s.images.getLast? with
  | some newImage =>
    { s with images := s.images.dropLast ++ [{ newImage with dimensions := some dimensions }] }
  | none => s

/-- The route `GET /images` (server.js 116-130). -/
def getImages (s : ImageStore) : Response :=
  let images := s.getAll
  { status := 200, body := .imageList images images.length }

/-- The route `GET /images/:id` (server.js 133-152). -/
def getImage (s : ImageStore) (id : String) : Response :=
  match s.get id with
  | none => { status := 404, body := .failure "Image not found" }
  | some image =>
    { status := 200, body := .imageData image.mimeType "public, max-age=3600" image.data }

/-- The route `POST /upload` (server.js 155-204).  The request carries the
optional file part; `now` is the clock reading inside `add` and `dimensions`
is the value the promise of `processImage` resolves with. -/
def postUpload (s : ImageStore) (part : Option FilePart) (now : String)
    (dimensions : Dimensions) : Response × ImageStore :=
  match uploadSingle part with
  | .error e => (dispatchError appStack (.route "POST" "/upload") e, s)
  | .ok none => ({ status := 400, body := .failure "No file uploaded" }, s)
  | .ok (some file) =>
    let added := s.add
      { filename := file.originalname
        mimetype := file.mimetype
        buffer := file.buffer
        size := file.size } now
    let store := assignDimensions added.2 dimensions
    let newImage : ImageRecord := { added.1 with dimensions := some dimensions }
    ({ status := 201
       body := .uploaded
         { id := newImage.id
           filename := newImage.filename
           mimeType := newImage.mimeType
           size := newImage.size
           uploadedAt := newImage.uploadedAt
           dimensions := newImage.dimensions }
         "Image uploaded successfully" }, store)

/-- The route `DELETE /images/:id` (server.js 207-235). -/
def deleteImage (s : ImageStore) (id : String) : Response × ImageStore :=
  match s.delete id with
  | (none, store) => ({ status := 404, body := .failure "Image not found" }, store)
  | (some _, store) =>
    ({ status := 200, body := .deleted "Image deleted successfully" (parseInt id) }, store)

/-- The route `GET /stats` (server.js 238-250).  The quotient
`totalSize / images.length` is a division of JavaScript numbers: the double
nearest to the exact quotient. -/
def getStats (s : ImageStore) : Response :=
  let images := s.getAll
  let totalSize := images.foldl (fun sum img => sum + img.size) 0
  { status := 200
    body := .stats images.length totalSize
      (if images.length > 0 then nearestDouble totalSize images.length else 0) }

/-! ## Sequences of operations -/

/-- A mutating call on the store. -/
inductive StoreOp where
  | add (image : ImageInput) (now : String)
  | delete (id : String)
deriving DecidableEq, Repr

/-- The store after one call. -/
def applyOp (s : ImageStore) : StoreOp → ImageStore
  | .add image now => (s.add image now).2
  | .delete id => (s.delete id).2

/-- The store after a sequence of calls, first call first. -/
def runOps (s : ImageStore) (ops : List StoreOp) : ImageStore :=
  ops.foldl applyOp s

/-- The ids of the records returned by the `add` calls of a sequence, in the
order of the calls. -/
def assignedIds (s : ImageStore) : List StoreOp → List Nat
  | [] => []
  | .add image now :: ops => (s.add image now).1.id :: assignedIds (s.add image now).2 ops
  | .delete id :: ops => assignedIds (s.delete id).2 ops

/-- The values taken by the counter `nextId` along a sequence of calls,
starting with its value before the first call. -/
def nextIdTrace (s : ImageStore) : List StoreOp → List Nat
  | [] => [s.nextId]
  | op :: ops => s.nextId :: nextIdTrace (applyOp s op) ops

/-- Number of `add` calls in a sequence. -/
def countAdds (ops : List StoreOp) : Nat :=
  (ops.filter (fun op => match op with | .add _ _ => true | .delete _ => false)).length

/-- Number of `delete` calls in a sequence. -/
def countDeletes (ops : List StoreOp) : Nat :=
  (ops.filter (fun op => match op with | .add _ _ => false | .delete _ => true)).length

/-- Whether every `delete` call of the sequence names the id of a record that
is stored when the call is made, so that it returns a record. -/
def deletesExisting (s : ImageStore) : List StoreOp → Bool
  | [] => true
  | .add image now :: ops => deletesExisting (s.add image now).2 ops
  | .delete id :: ops => (s.delete id).1.isSome && deletesExisting (s.delete id).2 ops

/-- A request that may change the store. -/
inductive Request where
  | upload (part : Option FilePart) (now : String) (dimensions : Dimensions)
  | delete (id : String)
deriving DecidableEq, Repr

/-- One request handled to completion: the response and the store after it. -/
def handle (s : ImageStore) : Request → Response × ImageStore
  | .upload part now dimensions => postUpload s part now dimensions
  | .delete id => deleteImage s id

/-- The store after a sequence of requests, each handled as one step. -/
def serve (s : ImageStore) (requests : List Request) : ImageStore :=
  requests.foldl (fun store r => (handle store r).2) s

/-- Stores the program can be in: the empty store, and every store obtained
from one of them by a call of `add`, a call of `delete`, or a completed
`POST /upload` or `DELETE` request. -/
inductive Reachable : ImageStore → Prop where
  | new : Reachable ImageStore.new
  | add {s : ImageStore} (image : ImageInput) (now : String) :
      Reachable s → Reachable (s.add image now).2
  | delete {s : ImageStore} (id : String) :
      Reachable s → Reachable (s.delete id).2
  | request {s : ImageStore} (r : Request) :
      Reachable s → Reachable (handle s r).2

/-! ## Simulated image processing and the shape of response bodies -/

/-- The function `processImage` (server.js 102-111).  The two calls of
`Math.random()` are inputs, `drawWidth` and `drawHeight`.  The promise
resolves with `Math.floor(draw * 800) + 400` and `Math.floor(draw * 600) + 300`,
where the product is the rounded product of two doubles; the argument `buffer`
is not read, and the delay of the timer is not part of the value. -/
def processImage (_buffer : List Byte) (drawWidth drawHeight : RandomDraw) : Dimensions :=
  { width := (⌊numberTimes drawWidth 800⌋ + 400).toNat
    height := (⌊numberTimes drawHeight 600⌋ + 300).toNat }

/-- The names of the properties the JSON body itself has, in the order of the
object literal that builds it in server.js; raw image bytes and the default
error page are not JSON objects and have none. -/
def Body.properties : Body → List String
  | .failure _ => ["success", "error"]
  | .uploaded _ _ => ["success", "data", "message"]
  | .deleted _ _ => ["success", "message", "data"]
  | .imageData _ _ _ => []
  | .imageList _ _ => ["success", "data", "count"]
  | .stats _ _ _ => ["success", "data"]
  | .defaultErrorPage => []

/-! ## Invariants -/

/-- The ids of the stored records increase along the array and are all below
the counter `nextId`. -/
def WellFormed (s : ImageStore) : Prop :=
  (s.images.map (fun img => img.id)).Pairwise (fun a b => a < b) ∧
  ∀ img ∈ s.images, img.id < s.nextId

/-- The record of an accepted upload as it stands in the store when the
handler of `POST /upload` has assigned its dimensions. -/
def uploadedRecord (s : ImageStore) (file : FilePart) (now : String)
    (dimensions : Dimensions) : ImageRecord :=
  { id := s.nextId
    filename := file.originalname
    mimeType := file.mimetype
    data := file.content
    uploadedAt := now
    size := file.content.length
    dimensions := some dimensions }

/-- In the store `t` a record with id `i` is stored, every stored record with
id `i` has the bytes `d` and the type `m`, and `i` is below the counter. -/
def Retains (i : Nat) (d : List Byte) (m : String) (t : ImageStore) : Prop :=
  (∃ r ∈ t.images, r.id = i) ∧
  (∀ r ∈ t.images, r.id = i → r.data = d ∧ r.mimeType = m) ∧
  i < t.nextId

/-- Whether `c` is one of the characters `0` to `9`. -/
def isDecimalDigit (c : Char) : Prop := 48 ≤ c.toNat ∧ c.toNat ≤ 57

/-- The notion used by the interface description, "the decimal text of an
integer": an optional minus sign, then one or more of the characters `0` to
`9`, and nothing else. -/
def isDecimalText (id : String) : Bool :=
  let body := match id.toList with
    | '-' :: rest => rest
    | cs => cs
  !body.isEmpty && body.all (fun c => decide (48 ≤ c.toNat ∧ c.toNat ≤ 57))

/-! ## Sample inputs -/

/-- A small PNG upload. -/
def samplePart : FilePart :=
  { originalname := "test.png", mimetype := "image/png", content := [137, 80, 78, 71] }

/-- The public view returned for `samplePart` uploaded into the empty store. -/
def sampleView : PublicView :=
  { id := 1, filename := "test.png", mimeType := "image/png", size := 4,
    uploadedAt := "2024-01-01T00:00:00.000Z",
    dimensions := some { width := 640, height := 480 } }

/-- Requests that follow the sample upload: a rejected upload, an accepted
one, and the deletion of the second record. -/
def sampleLater : List Request :=
  [ .upload (some { originalname := "notes.txt", mimetype := "text/plain", content := [104] })
      "2024-01-01T00:00:01.000Z" { width := 400, height := 300 },
    .upload (some { originalname := "b.jpg", mimetype := "image/jpeg", content := [255, 216] })
      "2024-01-01T00:00:02.000Z" { width := 1199, height := 899 },
    .delete "2" ]

/-- The upload of the test "should upload a valid image" (server.test.js
22-27): the file `test.jpg` of type `image/jpeg` holding the fifteen bytes of
the text "fake image data". -/
def testUpload : FilePart :=
  { originalname := "test.jpg", mimetype := "image/jpeg",
    content := [102, 97, 107, 101, 32, 105, 109, 97, 103, 101, 32, 100, 97, 116, 97] }

/-- The store after three uploads of one, one and two bytes. -/
def sampleThree : ImageStore :=
  serve ImageStore.new
    [ .upload (some { originalname := "a.png", mimetype := "image/png", content := [1] })
        "2024-01-01T00:00:00.000Z" { width := 400, height := 300 },
      .upload (some { originalname := "b.png", mimetype := "image/png", content := [2] })
        "2024-01-01T00:00:01.000Z" { width := 400, height := 300 },
      .upload (some { originalname := "c.png", mimetype := "image/png", content := [3, 4] })
        "2024-01-01T00:00:02.000Z" { width := 400, height := 300 } ]

/-- The largest double below 1, `(2 ^ 53 - 1) / 2 ^ 53`. -/
def largestDraw : RandomDraw :=
  { significand := 2 ^ 53 - 1, scale := 53 }

/-- The draw 0. -/
def zeroDraw : RandomDraw :=
  { significand := 0, scale := 53 }

/-- The store holding one record, with id 1. -/
def sampleStore : ImageStore :=
  (ImageStore.new.add
    { filename := "a.png", mimetype := "image/png", buffer := [1, 2], size := 2 }
    "2024-01-01T00:00:00.000Z").2

/-! ## Lemmas on the array helpers -/

theorem findIndex_none {α : Type} (p : α → Bool) (l : List α)
    (h : findIndex p l = none) : l.find? p = none ∧ l.eraseP p = l := by
  induction l with
  | nil => simp
  | cons x xs ih =>
    unfold findIndex at h
    by_cases hx : p x = true
    · simp [hx] at h
    · simp only [hx] at h
      have hxs : findIndex p xs = none := by
        cases hf : findIndex p xs with
        | none => rfl
        | some j => simp [hf] at h
      have ih2 := ih hxs
      simp [List.find?, List.eraseP, hx, ih2.1, ih2.2]

theorem findIndex_some {α : Type} (p : α → Bool) (l : List α) (i : Nat)
    (h : findIndex p l = some i) :
    l[i]? = l.find? p ∧ l.eraseIdx i = l.eraseP p ∧ (l.find? p).isSome = true := by
  induction l generalizing i with
  | nil => simp [findIndex] at h
  | cons x xs ih =>
    unfold findIndex at h
    by_cases hx : p x = true
    · simp [hx] at h
      subst h
      simp [List.find?, List.eraseP, hx]
    · simp only [hx] at h
      cases hf : findIndex p xs with
      | none => simp [hf] at h
      | some j =>
        simp [hf] at h
        subst h
        have ih2 := ih j hf
        simp [List.find?, List.eraseP, hx, ih2.1, ih2.2.1, ih2.2.2]

/-- The method `delete` returns what `get` finds and erases the first match. -/
theorem delete_eq (s : ImageStore) (id : String) :
    s.delete id = (s.get id, { s with images := s.images.eraseP (idMatches id) }) := by
  unfold ImageStore.delete ImageStore.get
  cases hf : findIndex (idMatches id) s.images with
  | none =>
    have h := findIndex_none _ _ hf
    simp [h.1, h.2]
  | some i =>
    have h := findIndex_some _ _ i hf
    simp [h.1, h.2.1]

theorem delete_nextId (s : ImageStore) (id : String) :
    (s.delete id).2.nextId = s.nextId := by
  simp [delete_eq]

theorem add_nextId (s : ImageStore) (image : ImageInput) (now : String) :
    (s.add image now).2.nextId = s.nextId + 1 := rfl

theorem add_id (s : ImageStore) (image : ImageInput) (now : String) :
    (s.add image now).1.id = s.nextId := rfl

/-! ## The id counter -/

theorem applyOp_nextId_le (s : ImageStore) (op : StoreOp) :
    s.nextId ≤ (applyOp s op).nextId := by
  cases op with
  | add image now => simp [applyOp, add_nextId]
  | delete id => simp [applyOp, delete_nextId]

theorem runOps_nextId_le (s : ImageStore) (ops : List StoreOp) :
    s.nextId ≤ (runOps s ops).nextId := by
  induction ops generalizing s with
  | nil => simp [runOps]
  | cons op ops ih =>
    have h1 := applyOp_nextId_le s op
    have h2 := ih (applyOp s op)
    simp only [runOps, List.foldl_cons] at h2 ⊢
    omega

theorem assignedIds_bounds (s : ImageStore) (ops : List StoreOp) :
    ∀ i ∈ assignedIds s ops, s.nextId ≤ i ∧ i < (runOps s ops).nextId := by
  induction ops generalizing s with
  | nil => simp [assignedIds]
  | cons op ops ih =>
    intro i hi
    cases op with
    | add image now =>
      simp only [assignedIds, List.mem_cons] at hi
      have hrun := runOps_nextId_le (s.add image now).2 ops
      simp only [runOps, List.foldl_cons, applyOp] at hrun ⊢
      rw [add_nextId] at hrun
      rcases hi with hi | hi
      · subst hi
        rw [add_id]
        omega
      · have h := ih (s.add image now).2 i hi
        rw [add_nextId] at h
        simp only [runOps] at h
        omega
    | delete id =>
      simp only [assignedIds] at hi
      have h := ih (s.delete id).2 i hi
      rw [delete_nextId] at h
      simpa [runOps, applyOp] using h

theorem assignedIds_pairwise (s : ImageStore) (ops : List StoreOp) :
    (assignedIds s ops).Pairwise (fun a b => a < b) := by
  induction ops generalizing s with
  | nil => simp [assignedIds]
  | cons op ops ih =>
    cases op with
    | add image now =>
      simp only [assignedIds, List.pairwise_cons]
      refine ⟨?_, ih _⟩
      intro j hj
      have h := (assignedIds_bounds (s.add image now).2 ops j hj).1
      rw [add_nextId] at h
      rw [add_id]
      omega
    | delete id =>
      simpa [assignedIds] using ih (s.delete id).2

theorem nextIdTrace_ge (s : ImageStore) (ops : List StoreOp) :
    ∀ n ∈ nextIdTrace s ops, s.nextId ≤ n := by
  induction ops generalizing s with
  | nil => simp [nextIdTrace]
  | cons op ops ih =>
    intro n hn
    simp only [nextIdTrace, List.mem_cons] at hn
    rcases hn with hn | hn
    · omega
    · have h1 := ih (applyOp s op) n hn
      have h2 := applyOp_nextId_le s op
      omega

theorem nextIdTrace_pairwise (s : ImageStore) (ops : List StoreOp) :
    (nextIdTrace s ops).Pairwise (fun a b => a ≤ b) := by
  induction ops generalizing s with
  | nil => simp [nextIdTrace]
  | cons op ops ih =>
    simp only [nextIdTrace, List.pairwise_cons]
    refine ⟨?_, ih _⟩
    intro n hn
    have h1 := nextIdTrace_ge (applyOp s op) ops n hn
    have h2 := applyOp_nextId_le s op
    omega

/-- C1: along every sequence of `add` and `delete` calls on a store that
starts empty with `nextId = 1`, the id returned by each `add` is strictly
greater than the id returned by every earlier `add` (whether or not that
record was deleted since), the counter `nextId` never decreases, no id is
returned twice, and every id handed out is below the final counter. -/
theorem C1_ids_strictly_increasing (ops : List StoreOp) :
    (assignedIds ImageStore.new ops).Pairwise (fun earlier later => earlier < later) ∧
    (nextIdTrace ImageStore.new ops).Pairwise (fun before after => before ≤ after) ∧
    (assignedIds ImageStore.new ops).Nodup ∧
    (∀ i ∈ assignedIds ImageStore.new ops,
      1 ≤ i ∧ i < (runOps ImageStore.new ops).nextId) := by
  refine ⟨assignedIds_pairwise _ _, nextIdTrace_pairwise _ _, ?_, ?_⟩
  · exact (assignedIds_pairwise ImageStore.new ops).imp (fun h => Nat.ne_of_lt h)
  · intro i hi
    exact assignedIds_bounds ImageStore.new ops i hi

/-! ## Upload validation -/

theorem dispatchError_postUpload (e : UploadError) :
    dispatchError appStack (.route "POST" "/upload") e = finalHandler e := by
  have h : (layersAfter (.route "POST" "/upload") appStack).find?
      (fun l => l == Layer.errorHandler) = none := by decide
  simp [dispatchError, h]

/-- An error of the upload middleware reaches no error-handling middleware:
the response is the default error page and the store is not touched. -/
theorem postUpload_error (s : ImageStore) (part : Option FilePart) (now : String)
    (dimensions : Dimensions) (e : UploadError) (h : uploadSingle part = .error e) :
    postUpload s part now dimensions = (finalHandler e, s) := by
  simp [postUpload, h, dispatchError_postUpload]

/-- C2 (counterexample): a file of type `image/jpg`, which is neither
`image/jpeg` nor `image/png`, passes the file filter; the upload is answered
with status 201 and the store gains a record. -/
theorem C2_counterexample_image_jpg :
    "image/jpg" ≠ "image/jpeg" ∧ "image/jpg" ≠ "image/png" ∧
    (postUpload ImageStore.new
      (some { originalname := "photo.jpg", mimetype := "image/jpg", content := [255, 216] })
      "2024-01-01T00:00:00.000Z" { width := 400, height := 300 }).1.status = 201 ∧
    (postUpload ImageStore.new
      (some { originalname := "photo.jpg", mimetype := "image/jpg", content := [255, 216] })
      "2024-01-01T00:00:00.000Z" { width := 400, height := 300 }).2.getCount = 1 := by
  decide

/-- C2 (amended): for every upload whose MIME type is none of `image/jpeg`,
`image/png` and `image/jpg`, the file filter rejects the file with the error
"Only JPEG and PNG images are allowed!", and the request leaves the store
unchanged: no record is created. -/
theorem C2_disallowed_type_rejected (s : ImageStore) (file : FilePart) (now : String)
    (dimensions : Dimensions)
    (hjpeg : file.mimetype ≠ "image/jpeg") (hpng : file.mimetype ≠ "image/png")
    (hjpg : file.mimetype ≠ "image/jpg") :
    uploadSingle (some file) =
      .error (.filterError "Only JPEG and PNG images are allowed!") ∧
    (postUpload s (some file) now dimensions).2 = s ∧
    (postUpload s (some file) now dimensions).2.getCount = s.getCount := by
  have hup : uploadSingle (some file) =
      .error (.filterError "Only JPEG and PNG images are allowed!") := by
    simp [uploadSingle, fileFilter, allowedTypes, hjpeg, hpng, hjpg]
  refine ⟨hup, ?_, ?_⟩ <;> simp [postUpload, hup]

/-- A `text/plain` upload into the empty store leaves it empty. -/
theorem C2_disallowed_type_rejected_witness :
    (postUpload ImageStore.new
      (some { originalname := "test.txt", mimetype := "text/plain", content := [104, 105] })
      "2024-01-01T00:00:00.000Z" { width := 400, height := 300 }).2 = ImageStore.new :=
  (C2_disallowed_type_rejected ImageStore.new
    { originalname := "test.txt", mimetype := "text/plain", content := [104, 105] }
    "2024-01-01T00:00:00.000Z" { width := 400, height := 300 }
    (by decide) (by decide) (by decide)).2.1

theorem uploadSingle_oversize (file : FilePart) (hmime : file.mimetype = "image/png")
    (hlen : file.content.length > fileSize) :
    uploadSingle (some file) = .error .limitFileSize := by
  simp [uploadSingle, fileFilter, allowedTypes, hmime, hlen]

/-- C3 (the code at the failing input): a PNG upload of `3 * 1024 * 1024 + 1`
bytes is refused by the size limit and leaves the store unchanged, but the
response is the default error page with status 500: the error-handling
middleware, which would answer 400, is registered before the route and is not
reached. -/
theorem C3_oversize_upload_status :
    (postUpload ImageStore.new
      (some { originalname := "big.png", mimetype := "image/png",
              content := List.replicate (3 * 1024 * 1024 + 1) 0 })
      "2024-01-01T00:00:00.000Z" { width := 400, height := 300 })
      = ({ status := 500, body := .defaultErrorPage }, ImageStore.new) ∧
    (errorMiddleware .limitFileSize).status = 400 := by
  constructor
  · have hlen : (List.replicate (3 * 1024 * 1024 + 1) (0 : Byte)).length > fileSize := by
      rw [List.length_replicate]
      decide
    have hup := uploadSingle_oversize
      { originalname := "big.png", mimetype := "image/png",
        content := List.replicate (3 * 1024 * 1024 + 1) 0 } rfl hlen
    exact postUpload_error _ _ _ _ _ hup
  · rfl

/-! ## Reachable stores are well formed -/

theorem postUpload_cases (s : ImageStore) (part : Option FilePart) (now : String)
    (dimensions : Dimensions) :
    ((postUpload s part now dimensions).1.status ≠ 201 ∧
      (postUpload s part now dimensions).2 = s) ∨
    (∃ file, part = some file ∧
      postUpload s part now dimensions =
        ({ status := 201
           body := .uploaded (toPublicView (uploadedRecord s file now dimensions))
             "Image uploaded successfully" },
         { images := s.images ++ [uploadedRecord s file now dimensions]
           nextId := s.nextId + 1 })) := by
  cases part with
  | none => left; simp [postUpload, uploadSingle]
  | some file =>
    cases hup : uploadSingle (some file) with
    | error e =>
      left
      rw [postUpload_error s _ now dimensions e hup]
      simp [finalHandler]
    | ok mf =>
      right
      refine ⟨file, rfl, ?_⟩
      unfold uploadSingle at hup
      simp only at hup
      cases hf : fileFilter file with
      | error e => simp [hf] at hup
      | ok b =>
        simp only [hf] at hup
        by_cases hlen : file.content.length > fileSize
        · simp [hlen] at hup
        · simp only [hlen, if_false] at hup
          have hmf : mf = some
              { originalname := file.originalname, mimetype := file.mimetype,
                buffer := file.content, size := file.content.length } := by
            injection hup with h
            exact h.symm
          subst hmf
          have hup2 : uploadSingle (some file) = .ok (some
              { originalname := file.originalname, mimetype := file.mimetype,
                buffer := file.content, size := file.content.length }) := by
            simp [uploadSingle, hf, hlen]
          simp [postUpload, hup2, ImageStore.add, assignDimensions, uploadedRecord,
            toPublicView]

theorem wellFormed_new : WellFormed ImageStore.new := by
  simp [WellFormed, ImageStore.new]

theorem wellFormed_append (s : ImageStore) (r : ImageRecord) (h : WellFormed s)
    (hr : r.id = s.nextId) :
    WellFormed { images := s.images ++ [r], nextId := s.nextId + 1 } := by
  obtain ⟨hsorted, hbound⟩ := h
  constructor
  · simp only [List.map_append, List.map_cons, List.map_nil]
    rw [List.pairwise_append]
    refine ⟨hsorted, by simp, ?_⟩
    intro a ha b hb
    simp only [List.mem_singleton] at hb
    obtain ⟨img, himg, rfl⟩ := List.mem_map.1 ha
    have := hbound img himg
    omega
  · intro img himg
    simp only [List.mem_append, List.mem_singleton] at himg
    rcases himg with himg | himg
    · have := hbound img himg
      show img.id < s.nextId + 1
      omega
    · subst himg
      show img.id < s.nextId + 1
      omega

theorem wellFormed_add (s : ImageStore) (image : ImageInput) (now : String)
    (h : WellFormed s) : WellFormed (s.add image now).2 :=
  wellFormed_append s _ h rfl

theorem wellFormed_delete (s : ImageStore) (id : String) (h : WellFormed s) :
    WellFormed (s.delete id).2 := by
  obtain ⟨hsorted, hbound⟩ := h
  rw [delete_eq]
  constructor
  · exact List.Pairwise.sublist ((List.eraseP_sublist s.images).map _) hsorted
  · intro img himg
    exact hbound img ((List.eraseP_sublist s.images).subset himg)

theorem wellFormed_handle (s : ImageStore) (r : Request) (h : WellFormed s) :
    WellFormed (handle s r).2 := by
  cases r with
  | upload part now dimensions =>
    rcases postUpload_cases s part now dimensions with ⟨_, hsame⟩ | ⟨file, _, heq⟩
    · simp only [handle]
      rw [hsame]
      exact h
    · simp only [handle]
      rw [heq]
      exact wellFormed_append s _ h rfl
  | delete id =>
    have hd := wellFormed_delete s id h
    simp only [handle, deleteImage]
    cases hdel : s.delete id with
    | mk removed store =>
      rw [hdel] at hd
      cases removed <;> exact hd

theorem reachable_wellFormed (s : ImageStore) (h : Reachable s) : WellFormed s := by
  induction h with
  | new => exact wellFormed_new
  | add image now _ ih => exact wellFormed_add _ image now ih
  | delete id _ ih => exact wellFormed_delete _ id ih
  | request r _ ih => exact wellFormed_handle _ r ih

/-! ## Lookup and deletion -/

theorem idMatches_iff (id : String) (img : ImageRecord) :
    idMatches id img = true ↔ parseInt id = some (img.id : Int) := by
  simp [idMatches]

/-- C5: for every store and every id parameter that matches no stored record,
`delete` returns `null`, the route `DELETE /images/:id` answers 404 with
"Image not found", and the store is the same as before: the same records, the
same `getCount()` and the same `nextId`. -/
theorem C5_delete_missing_id (s : ImageStore) (id : String)
    (hno : ∀ img ∈ s.images, parseInt id ≠ some (img.id : Int)) :
    s.delete id = (none, s) ∧
    deleteImage s id = ({ status := 404, body := .failure "Image not found" }, s) ∧
    (s.delete id).2.images = s.images ∧
    (s.delete id).2.getCount = s.getCount ∧
    (s.delete id).2.nextId = s.nextId := by
  have hp : ∀ img ∈ s.images, ¬ (idMatches id img = true) := by
    intro img himg hm
    exact hno img himg ((idMatches_iff id img).1 hm)
  have hget : s.get id = none := by
    simp only [ImageStore.get, List.find?_eq_none]
    exact hp
  have hdel : s.delete id = (none, s) := by
    rw [delete_eq, hget, List.eraseP_of_forall_not hp]
  refine ⟨hdel, ?_, ?_, ?_, ?_⟩
  · simp [deleteImage, hdel]
  · rw [hdel]
  · rw [hdel]
  · rw [hdel]

/-- Deleting id 999 from a store that holds only id 1 answers 404 and keeps
the store. -/
theorem C5_delete_missing_id_witness :
    deleteImage
      { images := [{ id := 1, filename := "a.png", mimeType := "image/png", data := [1],
                     uploadedAt := "t", size := 1, dimensions := none }], nextId := 2 } "999"
    = ({ status := 404, body := .failure "Image not found" },
       { images := [{ id := 1, filename := "a.png", mimeType := "image/png", data := [1],
                      uploadedAt := "t", size := 1, dimensions := none }], nextId := 2 }) :=
  (C5_delete_missing_id
    { images := [{ id := 1, filename := "a.png", mimeType := "image/png", data := [1],
                   uploadedAt := "t", size := 1, dimensions := none }], nextId := 2 } "999"
    (by decide)).2.1

/-- In a well-formed store two records with the same id are the same record. -/
theorem wellFormed_id_inj (s : ImageStore) (h : WellFormed s) (a b : ImageRecord)
    (ha : a ∈ s.images) (hb : b ∈ s.images) (hid : a.id = b.id) : a = b := by
  have hnodup : (s.images.map (fun img => img.id)).Nodup :=
    h.1.imp (fun hlt => Nat.ne_of_lt hlt)
  exact List.inj_on_of_nodup_map hnodup ha hb hid

theorem get_of_mem (s : ImageStore) (h : WellFormed s) (r : ImageRecord)
    (hr : r ∈ s.images) (id : String) (hid : parseInt id = some (r.id : Int)) :
    s.get id = some r := by
  cases hg : s.get id with
  | none =>
    simp only [ImageStore.get, List.find?_eq_none] at hg
    exact absurd ((idMatches_iff id r).2 hid) (hg r hr)
  | some a =>
    have hmem : a ∈ s.images := List.mem_of_find?_eq_some hg
    have hm : parseInt id = some (a.id : Int) := (idMatches_iff id a).1 (List.find?_some hg)
    have : (a.id : Int) = (r.id : Int) := by
      rw [hm] at hid
      exact Option.some.inj hid
    have hid2 : a.id = r.id := by exact_mod_cast this
    rw [wellFormed_id_inj s h a r hmem hr hid2]

/-- C6: in every store reachable from the empty store, deleting by the id of
a stored record returns that record and removes exactly it: the array splits
around the record and the two sides are kept in order, the record is gone,
`get` on the same id then finds nothing, `get` on every parameter that denotes
another id returns what it returned before, and the route answers 200. -/
theorem C6_delete_removes_exactly (s : ImageStore) (hs : Reachable s) (r : ImageRecord)
    (hr : r ∈ s.images) (id : String) (hid : parseInt id = some (r.id : Int)) :
    (s.delete id).1 = some r ∧
    (∃ before after, s.images = before ++ r :: after ∧
      (s.delete id).2.images = before ++ after) ∧
    r ∉ (s.delete id).2.images ∧
    (s.delete id).2.nextId = s.nextId ∧
    (s.delete id).2.get id = none ∧
    (∀ other : String, parseInt other ≠ some (r.id : Int) →
      (s.delete id).2.get other = s.get other) ∧
    (deleteImage s id).1.status = 200 := by
  have hwf := reachable_wellFormed s hs
  have hget := get_of_mem s hwf r hr id hid
  have hpr : idMatches id r = true := (idMatches_iff id r).2 hid
  obtain ⟨a, l₁, l₂, _, hpa, hsplit, herase⟩ := List.exists_of_eraseP hr hpr
  have ha : a = r := by
    have hmem : a ∈ s.images := by rw [hsplit]; simp
    have h1 : parseInt id = some (a.id : Int) := (idMatches_iff id a).1 hpa
    have h2 : (a.id : Int) = (r.id : Int) := by
      rw [h1] at hid
      exact Option.some.inj hid
    exact wellFormed_id_inj s hwf a r hmem hr (by exact_mod_cast h2)
  subst ha
  have hnodup : (s.images.map (fun img => img.id)).Nodup :=
    hwf.1.imp (fun hlt => Nat.ne_of_lt hlt)
  have hfresh : ∀ x ∈ l₁ ++ l₂, x.id ≠ a.id := by
    intro x hx hxa
    rw [hsplit, List.map_append, List.map_cons, List.nodup_middle, List.nodup_cons] at hnodup
    apply hnodup.1
    rw [← List.map_append]
    exact List.mem_map.2 ⟨x, hx, hxa⟩
  have himages : (s.delete id).2.images = l₁ ++ l₂ := by
    rw [delete_eq]
    exact herase
  have hgone : a ∉ (s.delete id).2.images := by
    rw [himages]
    intro hmem
    exact hfresh a hmem rfl
  refine ⟨by rw [delete_eq, hget], ⟨l₁, l₂, hsplit, himages⟩, hgone, delete_nextId s id, ?_, ?_, ?_⟩
  · simp only [ImageStore.get, himages, List.find?_eq_none]
    intro x hx hm
    have h1 : parseInt id = some (x.id : Int) := (idMatches_iff id x).1 hm
    rw [h1] at hid
    have h2 : (x.id : Int) = (a.id : Int) := Option.some.inj hid
    exact hfresh x hx (by exact_mod_cast h2)
  · intro other hother
    have hfalse : idMatches other a = false := by
      cases hm : idMatches other a with
      | false => rfl
      | true => exact absurd ((idMatches_iff other a).1 hm) hother
    simp only [ImageStore.get, himages, hsplit, List.find?_append, List.find?_cons, hfalse]
  · simp only [deleteImage]
    have hdel : s.delete id = (some a, (s.delete id).2) := by
      rw [delete_eq, hget]
    rw [hdel]

/-- Deleting id 1 right after the first `add` returns the added record. -/
theorem C6_delete_removes_exactly_witness :
    ((ImageStore.new.add
        { filename := "a.png", mimetype := "image/png", buffer := [1], size := 1 } "t").2.delete
      "1").1
    = some (ImageStore.new.add
        { filename := "a.png", mimetype := "image/png", buffer := [1], size := 1 } "t").1 :=
  (C6_delete_removes_exactly
    (ImageStore.new.add
      { filename := "a.png", mimetype := "image/png", buffer := [1], size := 1 } "t").2
    (Reachable.add _ _ Reachable.new)
    (ImageStore.new.add
      { filename := "a.png", mimetype := "image/png", buffer := [1], size := 1 } "t").1
    (by decide) "1" (by decide)).1

/-! ## Listing, counting and statistics -/

/-- C7: for every store, `getAll()` yields one public view per stored record,
in the order of the array, and each view carries the id, filename, mimeType,
size, uploadedAt and dimensions of its record (a `PublicView` has no other
property, so no `data`); the length of the list is `getCount()`, and it is one
after a single `add` on the empty store. -/
theorem C7_getAll_public_views (s : ImageStore) :
    List.Forall₂
      (fun (img : ImageRecord) (view : PublicView) =>
        view.id = img.id ∧ view.filename = img.filename ∧ view.mimeType = img.mimeType ∧
        view.size = img.size ∧ view.uploadedAt = img.uploadedAt ∧
        view.dimensions = img.dimensions)
      s.images s.getAll ∧
    s.getAll.length = s.getCount ∧
    getImages s = { status := 200, body := .imageList s.getAll s.getCount } ∧
    (∀ (image : ImageInput) (now : String),
      (ImageStore.new.add image now).2.getAll.length = 1) := by
  refine ⟨?_, ?_, ?_, ?_⟩
  · unfold ImageStore.getAll
    induction s.images with
    | nil => exact List.Forall₂.nil
    | cons img rest ih =>
      exact List.Forall₂.cons ⟨rfl, rfl, rfl, rfl, rfl, rfl⟩ ih
  · simp [ImageStore.getAll, ImageStore.getCount]
  · simp [getImages, ImageStore.getAll, ImageStore.getCount]
  · intro image now
    simp [ImageStore.getAll, ImageStore.add, ImageStore.new]

theorem countAdds_add (image : ImageInput) (now : String) (ops : List StoreOp) :
    countAdds (.add image now :: ops) = countAdds ops + 1 := by
  simp [countAdds]

theorem countAdds_delete (id : String) (ops : List StoreOp) :
    countAdds (.delete id :: ops) = countAdds ops := by
  simp [countAdds]

theorem countDeletes_add (image : ImageInput) (now : String) (ops : List StoreOp) :
    countDeletes (.add image now :: ops) = countDeletes ops := by
  simp [countDeletes]

theorem countDeletes_delete (id : String) (ops : List StoreOp) :
    countDeletes (.delete id :: ops) = countDeletes ops + 1 := by
  simp [countDeletes]

theorem runOps_count (s : ImageStore) (ops : List StoreOp)
    (h : deletesExisting s ops = true) :
    (runOps s ops).getCount + countDeletes ops = s.getCount + countAdds ops := by
  induction ops generalizing s with
  | nil => simp [runOps, countDeletes, countAdds]
  | cons op ops ih =>
    cases op with
    | add image now =>
      simp only [deletesExisting] at h
      have h2 := ih (s.add image now).2 h
      have hlen : (s.add image now).2.getCount = s.getCount + 1 := by
        simp [ImageStore.add, ImageStore.getCount]
      simp only [runOps, List.foldl_cons, applyOp] at h2 ⊢
      rw [countAdds_add, countDeletes_add]
      omega
    | delete id =>
      simp only [deletesExisting, Bool.and_eq_true] at h
      have h2 := ih (s.delete id).2 h.2
      have hsome : (s.get id).isSome = true := by
        have := h.1
        rwa [delete_eq] at this
      obtain ⟨x, hx, hpx⟩ := List.find?_isSome.1 hsome
      have hlen : (s.delete id).2.getCount + 1 = s.getCount := by
        rw [delete_eq]
        simp only [ImageStore.getCount, List.length_eraseP_of_mem hx hpx]
        have : 0 < s.images.length := List.length_pos_of_mem hx
        omega
      simp only [runOps, List.foldl_cons, applyOp] at h2 ⊢
      rw [countAdds_delete, countDeletes_delete]
      omega

/-- C8: starting from the empty store, after any interleaving of `add` and
`delete` calls in which every `delete` names an id stored at the time of the
call, `getCount()` is the number of `add` calls minus the number of `delete`
calls, and there are at most as many deletions as additions. -/
theorem C8_count_after_ops (ops : List StoreOp)
    (h : deletesExisting ImageStore.new ops = true) :
    (runOps ImageStore.new ops).getCount = countAdds ops - countDeletes ops ∧
    countDeletes ops ≤ countAdds ops := by
  have hc := runOps_count ImageStore.new ops h
  have h0 : ImageStore.new.getCount = 0 := rfl
  omega

/-- Three additions interleaved with two deletions of stored ids leave one
record. -/
theorem C8_count_after_ops_witness :
    (runOps ImageStore.new
      [.add { filename := "a.png", mimetype := "image/png", buffer := [1], size := 1 } "t1",
       .add { filename := "b.png", mimetype := "image/png", buffer := [2], size := 1 } "t2",
       .delete "1",
       .add { filename := "c.png", mimetype := "image/png", buffer := [3], size := 1 } "t3",
       .delete "3"]).getCount = 3 - 2 :=
  (C8_count_after_ops
    [.add { filename := "a.png", mimetype := "image/png", buffer := [1], size := 1 } "t1",
     .add { filename := "b.png", mimetype := "image/png", buffer := [2], size := 1 } "t2",
     .delete "1",
     .add { filename := "c.png", mimetype := "image/png", buffer := [3], size := 1 } "t3",
     .delete "3"] (by decide)).1

theorem foldl_size_eq_sum (views : List PublicView) (start : Nat) :
    views.foldl (fun sum img => sum + img.size) start
      = start + (views.map (fun view => view.size)).sum := by
  induction views generalizing start with
  | nil => simp
  | cons v vs ih =>
    simp only [List.foldl_cons, List.map_cons, List.sum_cons]
    rw [ih]
    omega

/-! ## Rounding to the nearest double -/

theorem two_zpow_toNat (z : Int) :
    ((2 : Rat) ^ z.toNat) / (2 : Rat) ^ (-z).toNat = (2 : Rat) ^ z := by
  rcases le_total 0 z with h | h
  · have h1 : (-z).toNat = 0 := by omega
    have h2 : (z.toNat : Int) = z := Int.toNat_of_nonneg h
    rw [h1, pow_zero, div_one, ← zpow_natCast, h2]
  · have h1 : z.toNat = 0 := by omega
    have h2 : ((-z).toNat : Int) = -z := Int.toNat_of_nonneg (by omega)
    rw [h1, pow_zero, one_div, ← zpow_natCast, h2, zpow_neg, inv_inv]

theorem two_zpow_pos (z : Int) : (0 : Rat) < (2 : Rat) ^ z :=
  zpow_pos (by norm_num) z

/-- The scaled quotient: numerator over denominator is `a / b * 2 ^ z`. -/
theorem scaled_quotient (a b : Nat) (hb : 0 < b) (z : Int) :
    ((a * 2 ^ z.toNat : Nat) : Rat) / ((b * 2 ^ (-z).toNat : Nat) : Rat)
      = (a : Rat) / b * (2 : Rat) ^ z := by
  have hbq : (b : Rat) ≠ 0 := by exact_mod_cast (Nat.pos_iff_ne_zero.1 hb)
  have hp : ((2 : Rat) ^ (-z).toNat) ≠ 0 := pow_ne_zero _ (by norm_num)
  rw [← two_zpow_toNat z]
  push_cast
  field_simp

theorem roundHalfEven_spec (n d : Nat) (hd : 0 < d) :
    2 * (roundHalfEven n d * d) ≤ 2 * n + d ∧ 2 * n ≤ 2 * (roundHalfEven n d * d) + d := by
  have hdiv := Nat.div_add_mod n d
  have hmod := Nat.mod_lt n hd
  have hk : n / d * d + n % d = n := by rw [Nat.mul_comm]; exact hdiv
  unfold roundHalfEven
  simp only
  split_ifs with h1 h2 h3
  · constructor <;> omega
  · rw [Nat.add_mul]; constructor <;> omega
  · constructor <;> omega
  · rw [Nat.add_mul]; constructor <;> omega

theorem roundHalfEven_abs (n d : Nat) (hd : 0 < d) :
    |(roundHalfEven n d : Rat) - (n : Rat) / d| ≤ 1 / 2 := by
  have hdq : (0 : Rat) < d := by exact_mod_cast hd
  obtain ⟨h1, h2⟩ := roundHalfEven_spec n d hd
  have h1q : (2 : Rat) * (roundHalfEven n d * d) ≤ 2 * n + d := by exact_mod_cast h1
  have h2q : (2 : Rat) * n ≤ 2 * (roundHalfEven n d * d) + d := by exact_mod_cast h2
  have hq : (n : Rat) / d * d = n := div_mul_cancel₀ _ (ne_of_gt hdq)
  have hup : ((roundHalfEven n d : Rat) - (n : Rat) / d - 1 / 2) * d ≤ 0 := by
    rw [sub_mul, sub_mul, hq]
    linarith
  have hlo : ((n : Rat) / d - (roundHalfEven n d : Rat) - 1 / 2) * d ≤ 0 := by
    rw [sub_mul, sub_mul, hq]
    linarith
  rw [abs_le]
  constructor
  · by_contra hneg
    push_neg at hneg
    have hpos : 0 < ((n : Rat) / d - (roundHalfEven n d : Rat) - 1 / 2) * d :=
      mul_pos (by linarith) hdq
    linarith
  · by_contra hneg
    push_neg at hneg
    have hpos : 0 < ((roundHalfEven n d : Rat) - (n : Rat) / d - 1 / 2) * d :=
      mul_pos (by linarith) hdq
    linarith

theorem roundHalfEven_of_dvd (n d : Nat) (hd : 0 < d) (h : d ∣ n) :
    roundHalfEven n d = n / d := by
  have hmod : n % d = 0 := Nat.mod_eq_zero_of_dvd h
  unfold roundHalfEven
  simp [hmod, hd]

theorem quotientExponent_spec (a b : Nat) (ha : 0 < a) (hb : 0 < b) :
    (2 : Rat) ^ quotientExponent a b ≤ (a : Rat) / b ∧
    (a : Rat) / b < (2 : Rat) ^ (quotientExponent a b + 1) := by
  have hbq : (0 : Rat) < b := by exact_mod_cast hb
  have ha1 : ((2 : Rat) ^ (Nat.log2 a : Int)) ≤ a := by
    rw [zpow_natCast]
    exact_mod_cast Nat.log2_self_le (Nat.pos_iff_ne_zero.1 ha)
  have ha2 : (a : Rat) < (2 : Rat) ^ ((Nat.log2 a : Int) + 1) := by
    have h : a < 2 ^ (Nat.log2 a + 1) := Nat.lt_log2_self
    have h2 : (a : Rat) < (2 : Rat) ^ (Nat.log2 a + 1) := by exact_mod_cast h
    rw [← zpow_natCast] at h2
    exact_mod_cast h2
  have hb1 : ((2 : Rat) ^ (Nat.log2 b : Int)) ≤ b := by
    rw [zpow_natCast]
    exact_mod_cast Nat.log2_self_le (Nat.pos_iff_ne_zero.1 hb)
  have hb2 : (b : Rat) < (2 : Rat) ^ ((Nat.log2 b : Int) + 1) := by
    have h : b < 2 ^ (Nat.log2 b + 1) := Nat.lt_log2_self
    have h2 : (b : Rat) < (2 : Rat) ^ (Nat.log2 b + 1) := by exact_mod_cast h
    rw [← zpow_natCast] at h2
    exact_mod_cast h2
  have h2ne : (2 : Rat) ≠ 0 := by norm_num
  have hup : (a : Rat) / b < (2 : Rat) ^ ((Nat.log2 a : Int) - Nat.log2 b + 1) := by
    rw [div_lt_iff₀ hbq]
    have hsplit : (2 : Rat) ^ ((Nat.log2 a : Int) + 1)
        = (2 : Rat) ^ ((Nat.log2 a : Int) - Nat.log2 b + 1) * (2 : Rat) ^ (Nat.log2 b : Int) := by
      rw [← zpow_add₀ h2ne]
      congr 1
      ring
    have hmono : (2 : Rat) ^ ((Nat.log2 a : Int) - Nat.log2 b + 1) * (2 : Rat) ^ (Nat.log2 b : Int)
        ≤ (2 : Rat) ^ ((Nat.log2 a : Int) - Nat.log2 b + 1) * b :=
      mul_le_mul_of_nonneg_left hb1 (le_of_lt (two_zpow_pos _))
    linarith
  have hlow : (2 : Rat) ^ ((Nat.log2 a : Int) - Nat.log2 b - 1) ≤ (a : Rat) / b := by
    rw [le_div_iff₀ hbq]
    have hsplit : (2 : Rat) ^ (Nat.log2 a : Int)
        = (2 : Rat) ^ ((Nat.log2 a : Int) - Nat.log2 b - 1)
          * (2 : Rat) ^ ((Nat.log2 b : Int) + 1) := by
      rw [← zpow_add₀ h2ne]
      congr 1
      ring
    have hmono : (2 : Rat) ^ ((Nat.log2 a : Int) - Nat.log2 b - 1) * b
        ≤ (2 : Rat) ^ ((Nat.log2 a : Int) - Nat.log2 b - 1)
          * (2 : Rat) ^ ((Nat.log2 b : Int) + 1) :=
      mul_le_mul_of_nonneg_left (le_of_lt hb2) (le_of_lt (two_zpow_pos _))
    linarith
  have hcond : (b * 2 ^ ((Nat.log2 a : Int) - Nat.log2 b).toNat
        ≤ a * 2 ^ (-((Nat.log2 a : Int) - Nat.log2 b)).toNat) ↔
      (2 : Rat) ^ ((Nat.log2 a : Int) - Nat.log2 b) ≤ (a : Rat) / b := by
    have hpos : (0 : Rat) < (2 : Rat) ^ (-((Nat.log2 a : Int) - Nat.log2 b)).toNat :=
      pow_pos (by norm_num) _
    rw [← two_zpow_toNat, le_div_iff₀ hbq, div_mul_eq_mul_div, div_le_iff₀ hpos]
    constructor
    · intro h
      have hq : ((b * 2 ^ ((Nat.log2 a : Int) - Nat.log2 b).toNat : Nat) : Rat)
          ≤ ((a * 2 ^ (-((Nat.log2 a : Int) - Nat.log2 b)).toNat : Nat) : Rat) := by
        exact_mod_cast h
      push_cast at hq
      linarith
    · intro h
      have hq : ((b * 2 ^ ((Nat.log2 a : Int) - Nat.log2 b).toNat : Nat) : Rat)
          ≤ ((a * 2 ^ (-((Nat.log2 a : Int) - Nat.log2 b)).toNat : Nat) : Rat) := by
        push_cast
        linarith
      exact_mod_cast hq
  unfold quotientExponent
  simp only
  by_cases hc : b * 2 ^ ((Nat.log2 a : Int) - Nat.log2 b).toNat
      ≤ a * 2 ^ (-((Nat.log2 a : Int) - Nat.log2 b)).toNat
  · rw [if_pos hc]
    exact ⟨hcond.1 hc, hup⟩
  · rw [if_neg hc]
    refine ⟨hlow, ?_⟩
    have hlt : ¬ (2 : Rat) ^ ((Nat.log2 a : Int) - Nat.log2 b) ≤ (a : Rat) / b :=
      fun h => hc (hcond.2 h)
    rw [sub_add_cancel]
    exact lt_of_not_ge hlt

theorem binary_exponent_unique (x : Rat) (e f : Int)
    (he1 : (2 : Rat) ^ e ≤ x) (he2 : x < (2 : Rat) ^ (e + 1))
    (hf1 : (2 : Rat) ^ f ≤ x) (hf2 : x < (2 : Rat) ^ (f + 1)) : e = f := by
  have h1 : (2 : Rat) ^ e < (2 : Rat) ^ (f + 1) := lt_of_le_of_lt he1 hf2
  have h2 : (2 : Rat) ^ f < (2 : Rat) ^ (e + 1) := lt_of_le_of_lt hf1 he2
  have h3 : e < f + 1 := (zpow_lt_zpow_iff_right₀ (by norm_num : (1 : Rat) < 2)).1 h1
  have h4 : f < e + 1 := (zpow_lt_zpow_iff_right₀ (by norm_num : (1 : Rat) < 2)).1 h2
  omega

theorem quotientExponent_eq (a b : Nat) (e : Int) (ha : 0 < a) (hb : 0 < b)
    (h1 : (2 : Rat) ^ e ≤ (a : Rat) / b) (h2 : (a : Rat) / b < (2 : Rat) ^ (e + 1)) :
    quotientExponent a b = e :=
  binary_exponent_unique _ _ _ (quotientExponent_spec a b ha hb).1
    (quotientExponent_spec a b ha hb).2 h1 h2

theorem nearestDouble_value (a b : Nat) (ha : 0 < a) :
    nearestDouble a b =
      (roundHalfEven (a * 2 ^ (52 - max (quotientExponent a b) (-1022)).toNat)
        (b * 2 ^ (-(52 - max (quotientExponent a b) (-1022))).toNat) : Rat)
      * (2 : Rat) ^ (-(52 - max (quotientExponent a b) (-1022))) := by
  unfold nearestDouble
  rw [if_neg (Nat.pos_iff_ne_zero.1 ha)]

theorem nearestDouble_zero (b : Nat) : nearestDouble 0 b = 0 := by
  simp [nearestDouble]

theorem nearestDouble_nonneg (a b : Nat) : 0 ≤ nearestDouble a b := by
  rcases Nat.eq_zero_or_pos a with h | h
  · rw [h, nearestDouble_zero]
  · rw [nearestDouble_value a b h]
    exact mul_nonneg (Nat.cast_nonneg _) (le_of_lt (two_zpow_pos _))

/-- The value computed for a quotient whose binary exponent is known. -/
theorem nearestDouble_at (a b : Nat) (e : Int) (ha : 0 < a) (hb : 0 < b)
    (h1 : (2 : Rat) ^ e ≤ (a : Rat) / b) (h2 : (a : Rat) / b < (2 : Rat) ^ (e + 1)) :
    nearestDouble a b =
      (roundHalfEven (a * 2 ^ (52 - max e (-1022)).toNat)
        (b * 2 ^ (-(52 - max e (-1022))).toNat) : Rat)
      * (2 : Rat) ^ (-(52 - max e (-1022))) := by
  rw [nearestDouble_value a b ha, quotientExponent_eq a b e ha hb h1 h2]

/-- Rounding moves a quotient by at most half a unit in the last place. -/
theorem nearestDouble_error (a b : Nat) (ha : 0 < a) (hb : 0 < b) :
    |nearestDouble a b - (a : Rat) / b|
      ≤ (2 : Rat) ^ (max (quotientExponent a b) (-1022) - 53) := by
  have hD : 0 < b * 2 ^ (-(52 - max (quotientExponent a b) (-1022))).toNat :=
    Nat.mul_pos hb (Nat.pow_pos (by decide))
  have hround := roundHalfEven_abs
    (a * 2 ^ (52 - max (quotientExponent a b) (-1022)).toNat)
    (b * 2 ^ (-(52 - max (quotientExponent a b) (-1022))).toNat) hD
  rw [scaled_quotient a b hb] at hround
  rw [nearestDouble_value a b ha]
  have h2ne : (2 : Rat) ≠ 0 := by norm_num
  have hpos := two_zpow_pos (-(52 - max (quotientExponent a b) (-1022)))
  have hcancel : (2 : Rat) ^ (52 - max (quotientExponent a b) (-1022))
      * (2 : Rat) ^ (-(52 - max (quotientExponent a b) (-1022))) = 1 := by
    rw [← zpow_add₀ h2ne, add_neg_cancel, zpow_zero]
  have hfactor :
      (roundHalfEven (a * 2 ^ (52 - max (quotientExponent a b) (-1022)).toNat)
        (b * 2 ^ (-(52 - max (quotientExponent a b) (-1022))).toNat) : Rat)
      * (2 : Rat) ^ (-(52 - max (quotientExponent a b) (-1022))) - (a : Rat) / b
      = ((roundHalfEven (a * 2 ^ (52 - max (quotientExponent a b) (-1022)).toNat)
        (b * 2 ^ (-(52 - max (quotientExponent a b) (-1022))).toNat) : Rat)
        - (a : Rat) / b * (2 : Rat) ^ (52 - max (quotientExponent a b) (-1022)))
        * (2 : Rat) ^ (-(52 - max (quotientExponent a b) (-1022))) := by
    rw [sub_mul, mul_assoc, hcancel, mul_one]
  rw [hfactor, abs_mul, abs_of_pos hpos]
  have hhalf : (2 : Rat) ^ (max (quotientExponent a b) (-1022) - 53)
      = 1 / 2 * (2 : Rat) ^ (-(52 - max (quotientExponent a b) (-1022))) := by
    have h : max (quotientExponent a b) (-1022) - 53
        = -1 + -(52 - max (quotientExponent a b) (-1022)) := by ring
    rw [h, zpow_add₀ h2ne]
    norm_num
  rw [hhalf]
  exact mul_le_mul_of_nonneg_right hround (le_of_lt hpos)

/-- A quotient that fits the significand is not moved by rounding. -/
theorem nearestDouble_exact (a b : Nat) (ha : 0 < a) (hb : 0 < b)
    (hdiv : b * 2 ^ (-(52 - max (quotientExponent a b) (-1022))).toNat
      ∣ a * 2 ^ (52 - max (quotientExponent a b) (-1022)).toNat) :
    nearestDouble a b = (a : Rat) / b := by
  have hD : 0 < b * 2 ^ (-(52 - max (quotientExponent a b) (-1022))).toNat :=
    Nat.mul_pos hb (Nat.pow_pos (by decide))
  have hDq : ((b * 2 ^ (-(52 - max (quotientExponent a b) (-1022))).toNat : Nat) : Rat) ≠ 0 := by
    exact_mod_cast (Nat.pos_iff_ne_zero.1 hD)
  have h2ne : (2 : Rat) ≠ 0 := by norm_num
  rw [nearestDouble_value a b ha, roundHalfEven_of_dvd _ _ hD hdiv, Nat.cast_div hdiv hDq,
    scaled_quotient a b hb, mul_assoc, ← zpow_add₀ h2ne, add_neg_cancel, zpow_zero, mul_one]

/-- The quotient of a multiple of `b` by `b` is exact when it is below `2 ^ 53`. -/
theorem nearestDouble_of_dvd (a b : Nat) (hb : 0 < b) (hdiv : b ∣ a) (hlt : a < 2 ^ 53 * b) :
    nearestDouble a b = (a : Rat) / b := by
  rcases Nat.eq_zero_or_pos a with h | ha
  · rw [h, nearestDouble_zero]
    simp
  · have hbq : (0 : Rat) < b := by exact_mod_cast hb
    obtain ⟨hs1, hs2⟩ := quotientExponent_spec a b ha hb
    have hx1 : (1 : Rat) ≤ (a : Rat) / b := by
      rw [le_div_iff₀ hbq, one_mul]
      exact_mod_cast Nat.le_of_dvd ha hdiv
    have hx2 : (a : Rat) / b < (2 : Rat) ^ (53 : Int) := by
      rw [div_lt_iff₀ hbq]
      have : (a : Rat) < ((2 ^ 53 * b : Nat) : Rat) := by exact_mod_cast hlt
      push_cast at this
      have h53 : (2 : Rat) ^ (53 : Int) = (2 : Rat) ^ (53 : Nat) := by norm_cast
      rw [h53]
      exact this
    have he0 : 0 ≤ quotientExponent a b := by
      have h : (2 : Rat) ^ (0 : Int) < (2 : Rat) ^ (quotientExponent a b + 1) := by
        rw [zpow_zero]
        exact lt_of_le_of_lt hx1 hs2
      have := (zpow_lt_zpow_iff_right₀ (by norm_num : (1 : Rat) < 2)).1 h
      omega
    have he52 : quotientExponent a b ≤ 52 := by
      have h : (2 : Rat) ^ quotientExponent a b < (2 : Rat) ^ (53 : Int) :=
        lt_of_le_of_lt hs1 hx2
      have := (zpow_lt_zpow_iff_right₀ (by norm_num : (1 : Rat) < 2)).1 h
      omega
    apply nearestDouble_exact a b ha hb
    have hmax : max (quotientExponent a b) (-1022) = quotientExponent a b :=
      max_eq_left (by omega)
    rw [hmax]
    have hz : (-(52 - quotientExponent a b)).toNat = 0 := by omega
    rw [hz, pow_zero, Nat.mul_one]
    exact Dvd.dvd.mul_right hdiv _

theorem nearestDouble_four_thirds :
    nearestDouble 4 3 = 6004799503160661 / 4503599627370496 := by
  rw [nearestDouble_at 4 3 0 (by decide) (by decide) (by norm_num) (by norm_num)]
  have h1 : (52 - max (0 : Int) (-1022)).toNat = 52 := by decide
  have h2 : (-(52 - max (0 : Int) (-1022))).toNat = 0 := by decide
  have h3 : -(52 - max (0 : Int) (-1022)) = -52 := by decide
  rw [h1, h2, h3]
  have h4 : roundHalfEven (4 * 2 ^ 52) (3 * 2 ^ 0) = 6004799503160661 := by decide
  rw [h4]
  norm_num

theorem draw_value_range (d : RandomDraw) (h : d.valid) :
    0 ≤ d.value ∧ d.value < 1 := by
  obtain ⟨hm, hj, _⟩ := h
  have hpos : (0 : Rat) < (2 : Rat) ^ d.scale := pow_pos (by norm_num) _
  unfold RandomDraw.value
  constructor
  · exact div_nonneg (Nat.cast_nonneg _) (le_of_lt hpos)
  · rw [div_lt_one hpos]
    have h1 : (d.significand : Rat) < (2 : Rat) ^ 53 := by exact_mod_cast hm
    have h2 : (2 : Rat) ^ 53 ≤ (2 : Rat) ^ d.scale :=
      pow_le_pow_right₀ (by norm_num) hj
    linarith

/-- The rounded product of a draw and a factor `k ≥ 2` stays below `k`. -/
theorem numberTimes_lt (d : RandomDraw) (k : Nat) (h : d.valid) (hk : 2 ≤ k) :
    numberTimes d k < k := by
  obtain ⟨hm, hj, _⟩ := h
  have hkq : (2 : Rat) ≤ k := by exact_mod_cast hk
  unfold numberTimes
  rcases Nat.eq_zero_or_pos (d.significand * k) with h0 | ha
  · rw [h0, nearestDouble_zero]
    linarith
  · have hb : 0 < 2 ^ d.scale := Nat.pow_pos (by decide)
    have hbq : (0 : Rat) < ((2 ^ d.scale : Nat) : Rat) := by exact_mod_cast hb
    have herr := nearestDouble_error (d.significand * k) (2 ^ d.scale) ha hb
    obtain ⟨hs1, hs2⟩ := quotientExponent_spec (d.significand * k) (2 ^ d.scale) ha hb
    have hfl := (abs_le.1 herr).2
    -- the exact product is at most k * (1 - 2 ^ (-53))
    have hx : ((d.significand * k : Nat) : Rat) / ((2 ^ d.scale : Nat) : Rat)
        ≤ k * (1 - 1 / (2 : Rat) ^ 53) := by
      rw [div_le_iff₀ hbq]
      have h1 : (d.significand : Rat) ≤ (2 : Rat) ^ 53 - 1 := by
        have : d.significand + 1 ≤ 2 ^ 53 := hm
        have hq : ((d.significand + 1 : Nat) : Rat) ≤ ((2 ^ 53 : Nat) : Rat) := by
          exact_mod_cast this
        push_cast at hq
        linarith
      have h2 : (2 : Rat) ^ 53 ≤ ((2 ^ d.scale : Nat) : Rat) := by
        push_cast
        exact pow_le_pow_right₀ (by norm_num) hj
      have h3 : (0 : Rat) ≤ 1 - 1 / (2 : Rat) ^ 53 := by norm_num
      have h4 : (k : Rat) * (1 - 1 / (2 : Rat) ^ 53) * (2 : Rat) ^ 53
          ≤ k * (1 - 1 / (2 : Rat) ^ 53) * ((2 ^ d.scale : Nat) : Rat) :=
        mul_le_mul_of_nonneg_left h2 (mul_nonneg (by linarith) h3)
      have h5 : (k : Rat) * (1 - 1 / (2 : Rat) ^ 53) * (2 : Rat) ^ 53
          = k * ((2 : Rat) ^ 53 - 1) := by
        field_simp
      have h6 : ((d.significand * k : Nat) : Rat) ≤ k * ((2 : Rat) ^ 53 - 1) := by
        push_cast
        rw [mul_comm]
        exact mul_le_mul_of_nonneg_left h1 (by linarith)
      linarith
    rcases le_or_lt (-1022) (quotientExponent (d.significand * k) (2 ^ d.scale)) with he | he
    · rw [max_eq_left he] at hfl
      have hsplit : (2 : Rat) ^ (quotientExponent (d.significand * k) (2 ^ d.scale) - 53)
          = (2 : Rat) ^ quotientExponent (d.significand * k) (2 ^ d.scale)
            * (1 / (2 : Rat) ^ 53) := by
        rw [zpow_sub₀ (by norm_num : (2 : Rat) ≠ 0)]
        norm_cast
        rw [div_eq_mul_one_div]
      have hulp : (2 : Rat) ^ (quotientExponent (d.significand * k) (2 ^ d.scale) - 53)
          ≤ ((d.significand * k : Nat) : Rat) / ((2 ^ d.scale : Nat) : Rat)
            * (1 / (2 : Rat) ^ 53) := by
        rw [hsplit]
        exact mul_le_mul_of_nonneg_right hs1 (by norm_num)
      have hx0 : (0 : Rat) ≤ ((d.significand * k : Nat) : Rat) / ((2 ^ d.scale : Nat) : Rat) :=
        div_nonneg (Nat.cast_nonneg _) (le_of_lt hbq)
      have hprod : ((d.significand * k : Nat) : Rat) / ((2 ^ d.scale : Nat) : Rat)
            * (1 + 1 / (2 : Rat) ^ 53)
          ≤ k * (1 - 1 / (2 : Rat) ^ 53) * (1 + 1 / (2 : Rat) ^ 53) :=
        mul_le_mul_of_nonneg_right hx (by norm_num)
      have hsq : (k : Rat) * (1 - 1 / (2 : Rat) ^ 53) * (1 + 1 / (2 : Rat) ^ 53)
          = k - k * (1 / (2 : Rat) ^ 53) ^ 2 := by ring
      have hpos : (0 : Rat) < k * (1 / (2 : Rat) ^ 53) ^ 2 := by
        apply mul_pos (by linarith)
        positivity
      linarith
    · have hmax : max (quotientExponent (d.significand * k) (2 ^ d.scale)) (-1022) = -1022 :=
        max_eq_right (le_of_lt he)
      rw [hmax] at hfl
      have h1 : (2 : Rat) ^ (quotientExponent (d.significand * k) (2 ^ d.scale) + 1) ≤ 1 :=
        zpow_le_one_of_nonpos₀ (by norm_num) (by omega)
      have h2 : (2 : Rat) ^ ((-1022 : Int) - 53) ≤ 1 :=
        zpow_le_one_of_nonpos₀ (by norm_num) (by norm_num)
      have hlt2 : nearestDouble (d.significand * k) (2 ^ d.scale) < 2 := by linarith
      linarith

/-- Rounding moves a quotient with a denominator of at most `2 ^ 64` by at most
the fraction `2 ^ (-53)` of itself. -/
theorem nearestDouble_relative_error (a b : Nat) (hb : 0 < b) (hb2 : b ≤ 2 ^ 64) :
    |nearestDouble a b - (a : Rat) / b| ≤ (a : Rat) / b / (2 : Rat) ^ 53 := by
  rcases Nat.eq_zero_or_pos a with h | ha
  · rw [h, nearestDouble_zero]
    simp
  · have hbq : (0 : Rat) < b := by exact_mod_cast hb
    have herr := nearestDouble_error a b ha hb
    obtain ⟨hs1, hs2⟩ := quotientExponent_spec a b ha hb
    have hx : (2 : Rat) ^ (-64 : Int) ≤ (a : Rat) / b := by
      rw [le_div_iff₀ hbq]
      have h1 : (b : Rat) ≤ (2 : Rat) ^ (64 : Int) := by
        have : (b : Rat) ≤ ((2 ^ 64 : Nat) : Rat) := by exact_mod_cast hb2
        push_cast at this
        exact_mod_cast this
      have h2 : (2 : Rat) ^ (-64 : Int) * (2 : Rat) ^ (64 : Int) = 1 := by
        rw [← zpow_add₀ (by norm_num : (2 : Rat) ≠ 0)]
        norm_num
      have h3 : (2 : Rat) ^ (-64 : Int) * b
          ≤ (2 : Rat) ^ (-64 : Int) * (2 : Rat) ^ (64 : Int) :=
        mul_le_mul_of_nonneg_left h1 (le_of_lt (two_zpow_pos _))
      have h4 : (1 : Rat) ≤ a := by exact_mod_cast ha
      linarith
    have he : -1022 ≤ quotientExponent a b := by
      have h : (2 : Rat) ^ (-64 : Int) < (2 : Rat) ^ (quotientExponent a b + 1) :=
        lt_of_le_of_lt hx hs2
      have := (zpow_lt_zpow_iff_right₀ (by norm_num : (1 : Rat) < 2)).1 h
      omega
    rw [max_eq_left he] at herr
    have h53 : (2 : Rat) ^ (53 : Int) = (2 : Rat) ^ (53 : Nat) := by norm_cast
    have hsplit : (2 : Rat) ^ (quotientExponent a b - 53)
        = (2 : Rat) ^ quotientExponent a b / (2 : Rat) ^ 53 := by
      rw [zpow_sub₀ (by norm_num : (2 : Rat) ≠ 0), h53]
    rw [hsplit] at herr
    have hmono : (2 : Rat) ^ quotientExponent a b / (2 : Rat) ^ 53
        ≤ (a : Rat) / b / (2 : Rat) ^ 53 :=
      div_le_div_of_nonneg_right hs1 (by positivity)
    linarith

/-- C9 (counterexample): for the store holding three records of 1, 1 and 2
bytes, `GET /stats` reports `totalImages` 3, `totalSize` 4 and `averageSize`
6004799503160661 / 2 ^ 52, the double printed as 1.3333333333333333, which is
not the exact quotient 4 / 3. -/
theorem C9_counterexample_rounded_average :
    getStats sampleThree =
      { status := 200
        body := .stats 3 4 ((6004799503160661 : Rat) / 4503599627370496) } ∧
    ((6004799503160661 : Rat) / 4503599627370496) ≠ (4 : Rat) / 3 := by
  constructor
  · have himages : sampleThree.getAll.map (fun view => view.size) = [1, 1, 2] := by decide
    have hlen : sampleThree.getAll.length = 3 := by decide
    have hsum : sampleThree.getAll.foldl (fun sum img => sum + img.size) 0 = 4 := by
      rw [foldl_size_eq_sum, himages]
      rfl
    unfold getStats
    simp only [hsum, hlen]
    rw [if_pos (by decide), nearestDouble_four_thirds]
  · norm_num

/-- C9 (amended): for every store, `GET /stats` reports `totalImages` equal to
the number of records, `totalSize` equal to the sum of the `size` properties
of the current `getAll()` output, and `averageSize` equal to 0 for the empty
store and otherwise to the quotient `totalSize / totalImages` as JavaScript
computes it, the double nearest to the exact quotient: it differs from the
exact quotient by at most the fraction `2 ^ (-53)` of it (for an array of
fewer than `2 ^ 32` records, the limit of an array length), and it is the
exact quotient when that is a whole number below `2 ^ 53`; with a single
record, of a size below `2 ^ 53`, `averageSize` and `totalSize` are both the
size of that record. -/
theorem C9_stats_double_quotient (s : ImageStore) :
    getStats s =
      { status := 200
        body := .stats s.getCount ((s.getAll.map (fun view => view.size)).sum)
          (if s.getCount = 0 then 0
           else nearestDouble ((s.getAll.map (fun view => view.size)).sum) s.getCount) } ∧
    (0 < s.getCount → s.getCount < 2 ^ 32 →
      |nearestDouble ((s.getAll.map (fun view => view.size)).sum) s.getCount
          - (((s.getAll.map (fun view => view.size)).sum : Nat) : Rat) / (s.getCount : Rat)|
        ≤ (((s.getAll.map (fun view => view.size)).sum : Nat) : Rat) / (s.getCount : Rat)
          / (2 : Rat) ^ 53) ∧
    (0 < s.getCount → s.getCount ∣ (s.getAll.map (fun view => view.size)).sum →
      (s.getAll.map (fun view => view.size)).sum < 2 ^ 53 * s.getCount →
      nearestDouble ((s.getAll.map (fun view => view.size)).sum) s.getCount
        = (((s.getAll.map (fun view => view.size)).sum : Nat) : Rat) / (s.getCount : Rat)) ∧
    (∀ (r : ImageRecord) (nextId : Nat), r.size < 2 ^ 53 →
      getStats { images := [r], nextId := nextId } =
        { status := 200, body := .stats 1 r.size (r.size : Rat) }) := by
  refine ⟨?_, ?_, ?_, ?_⟩
  · have hlen : s.getAll.length = s.getCount := by
      simp [ImageStore.getAll, ImageStore.getCount]
    unfold getStats
    simp only [foldl_size_eq_sum, Nat.zero_add, hlen]
    by_cases h0 : s.getCount = 0
    · simp [h0]
    · have hpos : s.getCount > 0 := Nat.pos_of_ne_zero h0
      simp [h0, hpos]
  · intro hpos hlen
    exact nearestDouble_relative_error _ _ hpos
      (le_trans (le_of_lt hlen) (Nat.pow_le_pow_right (by decide) (by decide)))
  · intro hpos hdvd hlt
    exact nearestDouble_of_dvd _ _ hpos hdvd hlt
  · intro r nextId hsize
    have hexact : nearestDouble r.size 1 = (r.size : Rat) := by
      rw [nearestDouble_of_dvd r.size 1 (by decide) (one_dvd _) (by omega)]
      simp
    simp [getStats, ImageStore.getAll, toPublicView, hexact]

/-- For the store holding three records of 1, 1 and 2 bytes the reported
average is within the fraction `2 ^ (-53)` of 4 / 3. -/
theorem C9_stats_double_quotient_witness :
    |nearestDouble ((sampleThree.getAll.map (fun view => view.size)).sum) sampleThree.getCount
        - (((sampleThree.getAll.map (fun view => view.size)).sum : Nat) : Rat)
          / (sampleThree.getCount : Rat)|
      ≤ (((sampleThree.getAll.map (fun view => view.size)).sum : Nat) : Rat)
          / (sampleThree.getCount : Rat) / (2 : Rat) ^ 53 :=
  (C9_stats_double_quotient sampleThree).2.1 (by decide) (by decide)

/-! ## `parseInt` reads back the decimal text of a number -/

theorem digitChar_spec : ∀ k, k < 10 →
    isDecimalDigit (Nat.digitChar k) ∧ digitValue (Nat.digitChar k) = some k := by
  unfold isDecimalDigit
  decide

theorem digitsValue_append (radix : Nat) (l : List Char) (c : Char) :
    digitsValue radix (l ++ [c]) = digitsValue radix l * radix + (digitValue c).getD 0 := by
  simp [digitsValue, List.foldl_append]

theorem toDigitsCore_spec (fuel : Nat) : ∀ (n : Nat) (ds : List Char), n < fuel →
    ∃ l, Nat.toDigitsCore 10 fuel n ds = l ++ ds ∧ l ≠ [] ∧
      (∀ c ∈ l, isDecimalDigit c) ∧ digitsValue 10 l = n := by
  induction fuel with
  | zero => intro n ds h; omega
  | succ fuel ih =>
    intro n ds h
    have hd := digitChar_spec (n % 10) (Nat.mod_lt _ (by decide))
    unfold Nat.toDigitsCore
    by_cases h0 : n / 10 = 0
    · refine ⟨[Nat.digitChar (n % 10)], by simp [h0], by simp, ?_, ?_⟩
      · intro c hc
        simp only [List.mem_singleton] at hc
        subst hc
        exact hd.1
      · simp only [digitsValue, List.foldl_cons, List.foldl_nil, hd.2, Option.getD_some]
        omega
    · have hlt : n / 10 < fuel := by omega
      obtain ⟨l, hl, _, hall, hval⟩ := ih (n / 10) (Nat.digitChar (n % 10) :: ds) hlt
      refine ⟨l ++ [Nat.digitChar (n % 10)], by simp [h0, hl], by simp, ?_, ?_⟩
      · intro c hc
        simp only [List.mem_append, List.mem_singleton] at hc
        rcases hc with hc | hc
        · exact hall c hc
        · subst hc
          exact hd.1
      · rw [digitsValue_append, hval, hd.2, Option.getD_some]
        omega

theorem toString_toList (n : Nat) : (toString n).toList = Nat.toDigits 10 n := rfl

theorem isDecimalDigit_not_space (c : Char) (h : isDecimalDigit c) :
    isStrWhiteSpaceChar c = false := by
  unfold isDecimalDigit at h
  unfold isStrWhiteSpaceChar
  simp only [decide_eq_false_iff_not, List.mem_cons, List.mem_singleton, List.not_mem_nil,
    not_or, not_false_eq_true, and_true]
  omega

theorem isDecimalDigit_radix (c : Char) (h : isDecimalDigit c) :
    isRadixDigit 10 c = true := by
  unfold isDecimalDigit at h
  unfold isRadixDigit digitValue
  have h1 : c.toNat ≥ 48 ∧ c.toNat ≤ 57 := h
  simp only [h1, and_self, if_true, decide_eq_true_eq]
  omega

theorem parseInt_digits (l : List Char) (hne : l ≠ []) (hall : ∀ c ∈ l, isDecimalDigit c) :
    parseInt (String.mk l) = some (digitsValue 10 l : Int) := by
  obtain ⟨c, t, rfl⟩ := List.exists_cons_of_ne_nil hne
  have hc : isDecimalDigit c := hall c (by simp)
  have hdrop : (c :: t).dropWhile isStrWhiteSpaceChar = c :: t := by
    simp [List.dropWhile, isDecimalDigit_not_space c hc]
  have hsign : splitSign (c :: t) = (1, c :: t) := by
    unfold splitSign
    split
    · rename_i heq
      injection heq with h1 h2
      subst h1
      exact absurd hc (by unfold isDecimalDigit; decide)
    · rename_i heq
      injection heq with h1 h2
      subst h1
      exact absurd hc (by unfold isDecimalDigit; decide)
    · rfl
  have hradix : splitRadix (c :: t) = (10, c :: t) := by
    unfold splitRadix
    split
    · rename_i heq
      injection heq with h1 h2
      have hx : isDecimalDigit 'x' := hall 'x' (by rw [h2]; simp)
      exact absurd hx (by unfold isDecimalDigit; decide)
    · rename_i heq
      injection heq with h1 h2
      have hx : isDecimalDigit 'X' := hall 'X' (by rw [h2]; simp)
      exact absurd hx (by unfold isDecimalDigit; decide)
    · rfl
  have htake : (c :: t).takeWhile (isRadixDigit 10) = c :: t := by
    rw [List.takeWhile_eq_self_iff]
    intro x hx
    exact isDecimalDigit_radix x (hall x hx)
  unfold parseInt
  simp only [String.toList, hdrop, hsign, hradix, htake]
  simp

theorem parseInt_toString (n : Nat) : parseInt (toString n) = some (n : Int) := by
  obtain ⟨l, hl, hne, hall, hval⟩ := toDigitsCore_spec (n + 1) n [] (by omega)
  have hs : toString n = String.mk l := by
    show (Nat.toDigits 10 n).asString = String.mk l
    unfold Nat.toDigits
    rw [hl]
    simp [List.asString]
  rw [hs, parseInt_digits l hne hall, hval]

/-! ## Round trip of an upload -/

theorem deleteImage_store (s : ImageStore) (id : String) :
    (deleteImage s id).2 = (s.delete id).2 := by
  simp only [deleteImage]
  cases hdel : s.delete id with
  | mk removed store => cases removed <;> rfl

theorem retains_handle (i : Nat) (d : List Byte) (m : String) (t : ImageStore)
    (r : Request) (h : Retains i d m t)
    (hr : ∀ id, r = Request.delete id → parseInt id ≠ some (i : Int)) :
    Retains i d m (handle t r).2 := by
  obtain ⟨⟨x, hx, hxi⟩, hall, hlt⟩ := h
  cases r with
  | upload part now dimensions =>
    rcases postUpload_cases t part now dimensions with ⟨_, hsame⟩ | ⟨file, _, heq⟩
    · simp only [handle]
      rw [hsame]
      exact ⟨⟨x, hx, hxi⟩, hall, hlt⟩
    · simp only [handle]
      rw [heq]
      refine ⟨⟨x, by simp [hx], hxi⟩, ?_, ?_⟩
      · intro y hy hyi
        simp only [List.mem_append, List.mem_singleton] at hy
        rcases hy with hy | hy
        · exact hall y hy hyi
        · subst hy
          simp only [uploadedRecord] at hyi
          omega
      · show i < t.nextId + 1
        omega
  | delete id =>
    have hne := hr id rfl
    simp only [handle]
    rw [deleteImage_store, delete_eq]
    refine ⟨⟨x, ?_, hxi⟩, ?_, hlt⟩
    · have hnot : ¬ (idMatches id x = true) := by
        intro hm
        apply hne
        rw [(idMatches_iff id x).1 hm, hxi]
      exact (List.mem_eraseP_of_neg hnot).2 hx
    · intro y hy hyi
      exact hall y ((List.eraseP_sublist t.images).subset hy) hyi

theorem retains_serve (i : Nat) (d : List Byte) (m : String) (later : List Request) :
    ∀ (t : ImageStore), Retains i d m t →
      (∀ id, Request.delete id ∈ later → parseInt id ≠ some (i : Int)) →
      Retains i d m (serve t later) := by
  induction later with
  | nil => intro t h _; exact h
  | cons r rest ih =>
    intro t h hr
    have h1 : Retains i d m (handle t r).2 :=
      retains_handle i d m t r h (fun id hid => hr id (by simp [hid]))
    have h2 := ih (handle t r).2 h1 (fun id hid => hr id (by simp [hid]))
    simpa [serve] using h2

theorem retains_get (i : Nat) (d : List Byte) (m : String) (t : ImageStore)
    (h : Retains i d m t) (id : String) (hid : parseInt id = some (i : Int)) :
    ∃ r, t.get id = some r ∧ r.id = i ∧ r.data = d ∧ r.mimeType = m := by
  obtain ⟨⟨x, hx, hxi⟩, hall, _⟩ := h
  cases hg : t.get id with
  | none =>
    simp only [ImageStore.get, List.find?_eq_none] at hg
    have hm : idMatches id x = true := (idMatches_iff id x).2 (by rw [hid, hxi])
    exact absurd hm (hg x hx)
  | some a =>
    have hmem : a ∈ t.images := List.mem_of_find?_eq_some hg
    have hm : parseInt id = some (a.id : Int) := (idMatches_iff id a).1 (List.find?_some hg)
    have h2 : (a.id : Int) = (i : Int) := by
      rw [hm] at hid
      exact Option.some.inj hid
    have hai : a.id = i := by exact_mod_cast h2
    exact ⟨a, rfl, hai, (hall a hmem hai).1, (hall a hmem hai).2⟩

/-- The round trip for every id parameter that `parseInt` reads as the id
returned by the upload. -/
theorem round_trip_param (s : ImageStore) (hs : Reachable s) (part : Option FilePart)
    (now : String) (dimensions : Dimensions) (view : PublicView) (message : String)
    (hup : (postUpload s part now dimensions).1 =
      { status := 201, body := .uploaded view message })
    (later : List Request)
    (hlater : ∀ id, Request.delete id ∈ later → parseInt id ≠ some (view.id : Int))
    (id : String) (hid : parseInt id = some (view.id : Int)) :
    ∃ file r, part = some file ∧
      (serve (postUpload s part now dimensions).2 later).get id = some r ∧
      r.id = view.id ∧ r.data = file.content ∧ r.mimeType = file.mimetype ∧
      getImage (serve (postUpload s part now dimensions).2 later) id =
        { status := 200
          body := .imageData file.mimetype "public, max-age=3600" file.content } := by
  have hwf := reachable_wellFormed s hs
  rcases postUpload_cases s part now dimensions with ⟨hstatus, _⟩ | ⟨file, hpart, heq⟩
  · rw [hup] at hstatus
    exact absurd rfl hstatus
  · rw [heq] at hup
    have hview : view = toPublicView (uploadedRecord s file now dimensions) := by
      injection hup with _ hbody
      injection hbody with hv _
      exact hv.symm
    have hvid : view.id = s.nextId := by rw [hview]; rfl
    have hret : Retains view.id file.content file.mimetype (postUpload s part now dimensions).2 := by
      rw [heq, hvid]
      refine ⟨⟨uploadedRecord s file now dimensions, by simp, rfl⟩, ?_, ?_⟩
      · intro y hy hyi
        simp only [List.mem_append, List.mem_singleton] at hy
        rcases hy with hy | hy
        · have := hwf.2 y hy
          omega
        · subst hy
          exact ⟨rfl, rfl⟩
      · show s.nextId < s.nextId + 1
        omega
    have hfinal := retains_serve view.id file.content file.mimetype later _ hret hlater
    obtain ⟨r, hget, hri, hdata, hmime⟩ := retains_get _ _ _ _ hfinal id hid
    refine ⟨file, r, hpart, hget, hri, hdata, hmime, ?_⟩
    simp [getImage, hget, hdata, hmime]

/-- C4: after a successful upload into a reachable store that returned id `i`,
and after any further sequence of upload requests and of delete requests for
ids other than `i`, `get` on the decimal text of `i` finds a record with id
`i` whose data is the uploaded byte sequence and whose mimeType is the uploaded
MIME type, and `GET /images/i` answers 200 with those bytes and that type as
`Content-Type`. -/
theorem C4_upload_get_round_trip (s : ImageStore) (hs : Reachable s)
    (part : Option FilePart) (now : String) (dimensions : Dimensions)
    (view : PublicView) (message : String)
    (hup : (postUpload s part now dimensions).1 =
      { status := 201, body := .uploaded view message })
    (later : List Request)
    (hlater : ∀ id, Request.delete id ∈ later → parseInt id ≠ some (view.id : Int)) :
    ∃ file r, part = some file ∧
      (serve (postUpload s part now dimensions).2 later).get (toString view.id) = some r ∧
      r.id = view.id ∧ r.data = file.content ∧ r.mimeType = file.mimetype ∧
      getImage (serve (postUpload s part now dimensions).2 later) (toString view.id) =
        { status := 200
          body := .imageData file.mimetype "public, max-age=3600" file.content } :=
  round_trip_param s hs part now dimensions view message hup later hlater
    (toString view.id) (parseInt_toString view.id)

/-- The sample upload is served back after a rejected upload, an accepted
upload and the deletion of the second record. -/
theorem C4_upload_get_round_trip_witness :
    ∃ file r, some samplePart = some file ∧
      (serve (postUpload ImageStore.new (some samplePart) "2024-01-01T00:00:00.000Z"
        { width := 640, height := 480 }).2 sampleLater).get (toString sampleView.id) = some r ∧
      r.id = sampleView.id ∧ r.data = file.content ∧ r.mimeType = file.mimetype ∧
      getImage (serve (postUpload ImageStore.new (some samplePart) "2024-01-01T00:00:00.000Z"
        { width := 640, height := 480 }).2 sampleLater) (toString sampleView.id) =
        { status := 200
          body := .imageData file.mimetype "public, max-age=3600" file.content } :=
  C4_upload_get_round_trip ImageStore.new Reachable.new (some samplePart)
    "2024-01-01T00:00:00.000Z" { width := 640, height := 480 } sampleView
    "Image uploaded successfully" (by decide) sampleLater
    (by
      intro id hid
      simp only [sampleLater, List.mem_cons, List.mem_singleton, List.not_mem_nil,
        Request.delete.injEq, or_false, false_or, reduceCtorEq] at hid
      subst hid
      decide)

/-! ## Id parameters that are not integers -/

/-- C10 (counterexample): the parameters `1abc` and `1.5` are not the decimal
text of an integer, yet `parseInt` reads each as 1: on a store holding the
record with id 1, `get` returns that record and `delete` removes it. -/
theorem C10_counterexample_integer_head :
    isDecimalText "1abc" = false ∧ isDecimalText "1.5" = false ∧
    parseInt "1abc" = some 1 ∧ parseInt "1.5" = some 1 ∧
    (sampleStore.get "1abc").isSome = true ∧
    (sampleStore.get "1.5").isSome = true ∧
    (sampleStore.delete "1abc").1.isSome = true ∧
    (sampleStore.delete "1abc").2.images = [] ∧
    sampleStore.getCount = 1 ∧
    (deleteImage sampleStore "1.5").1.status = 200 := by
  decide

/-- C10 (amended): for every id parameter that `parseInt` reads as `NaN` (for
example `abc`, where no digit follows the optional leading white space and
sign) and for every store, `get` finds nothing, `delete` returns `null` and
leaves the store as it was, and both routes answer 404. -/
theorem C10_nan_id_not_found (s : ImageStore) (id : String) (h : parseInt id = none) :
    s.get id = none ∧
    s.delete id = (none, s) ∧
    getImage s id = { status := 404, body := .failure "Image not found" } ∧
    deleteImage s id = ({ status := 404, body := .failure "Image not found" }, s) := by
  have hp : ∀ img ∈ s.images, ¬ (idMatches id img = true) := by
    intro img _ hm
    rw [(idMatches_iff id img).1 hm] at h
    exact Option.noConfusion h
  have hget : s.get id = none := by
    simp only [ImageStore.get, List.find?_eq_none]
    exact hp
  have hdel : s.delete id = (none, s) := by
    rw [delete_eq, hget, List.eraseP_of_forall_not hp]
  exact ⟨hget, hdel, by simp [getImage, hget], by simp [deleteImage, hdel]⟩

/-- The parameter `abc` is read as `NaN` and matches nothing in the sample
store. -/
theorem C10_nan_id_not_found_witness :
    parseInt "abc" = none ∧
    sampleStore.get "abc" = none ∧
    sampleStore.delete "abc" = (none, sampleStore) :=
  ⟨by decide,
   (C10_nan_id_not_found sampleStore "abc" (by decide)).1,
   (C10_nan_id_not_found sampleStore "abc" (by decide)).2.1⟩

/-! ## Dimensions produced by `processImage` -/

theorem processImage_width (buffer : List Byte) (u v : RandomDraw) (hu : u.valid) :
    400 ≤ (processImage buffer u v).width ∧ (processImage buffer u v).width ≤ 1199 := by
  have hlo : 0 ≤ ⌊numberTimes u 800⌋ := Int.floor_nonneg.2 (nearestDouble_nonneg _ _)
  have hhi : ⌊numberTimes u 800⌋ < 800 :=
    Int.floor_lt.2 (by exact_mod_cast numberTimes_lt u 800 hu (by decide))
  simp only [processImage]
  omega

theorem processImage_height (buffer : List Byte) (u v : RandomDraw) (hv : v.valid) :
    300 ≤ (processImage buffer u v).height ∧ (processImage buffer u v).height ≤ 899 := by
  have hlo : 0 ≤ ⌊numberTimes v 600⌋ := Int.floor_nonneg.2 (nearestDouble_nonneg _ _)
  have hhi : ⌊numberTimes v 600⌋ < 600 :=
    Int.floor_lt.2 (by exact_mod_cast numberTimes_lt v 600 hv (by decide))
  simp only [processImage]
  omega

theorem processImage_zero (buffer : List Byte) :
    processImage buffer zeroDraw zeroDraw = { width := 400, height := 300 } := by
  simp [processImage, numberTimes, zeroDraw, nearestDouble_zero]

/-- The largest draw times 800 is rounded to the double just below 800. -/
theorem numberTimes_largest_800 :
    numberTimes largestDraw 800 = (7036874417766399 : Rat) / 8796093022208 := by
  unfold numberTimes largestDraw
  rw [nearestDouble_at ((2 ^ 53 - 1) * 800) (2 ^ 53) 9 (by decide) (by decide)
    (by norm_num) (by norm_num)]
  have h1 : (52 - max (9 : Int) (-1022)).toNat = 43 := by decide
  have h2 : (-(52 - max (9 : Int) (-1022))).toNat = 0 := by decide
  have h3 : -(52 - max (9 : Int) (-1022)) = -43 := by decide
  rw [h1, h2, h3]
  have h4 : roundHalfEven ((2 ^ 53 - 1) * 800 * 2 ^ 43) (2 ^ 53 * 2 ^ 0)
      = 7036874417766399 := by decide
  rw [h4]
  norm_num

/-- The largest draw times 600 is rounded to the double just below 600. -/
theorem numberTimes_largest_600 :
    numberTimes largestDraw 600 = (5277655813324799 : Rat) / 8796093022208 := by
  unfold numberTimes largestDraw
  rw [nearestDouble_at ((2 ^ 53 - 1) * 600) (2 ^ 53) 9 (by decide) (by decide)
    (by norm_num) (by norm_num)]
  have h1 : (52 - max (9 : Int) (-1022)).toNat = 43 := by decide
  have h2 : (-(52 - max (9 : Int) (-1022))).toNat = 0 := by decide
  have h3 : -(52 - max (9 : Int) (-1022)) = -43 := by decide
  rw [h1, h2, h3]
  have h4 : roundHalfEven ((2 ^ 53 - 1) * 600 * 2 ^ 43) (2 ^ 53 * 2 ^ 0)
      = 5277655813324799 := by decide
  rw [h4]
  norm_num

theorem processImage_top (buffer : List Byte) :
    processImage buffer largestDraw largestDraw = { width := 1199, height := 899 } := by
  have hw : ⌊(7036874417766399 : Rat) / 8796093022208⌋ = 799 := by
    rw [Int.floor_eq_iff]
    norm_num
  have hh : ⌊(5277655813324799 : Rat) / 8796093022208⌋ = 599 := by
    rw [Int.floor_eq_iff]
    norm_num
  simp [processImage, numberTimes_largest_800, numberTimes_largest_600, hw, hh]

/-- The product is rounded before the floor is taken: for the double nearest
to 0.64125 the exact product with 800 is below 513, the rounded product is
513, and the width is 913. -/
theorem processImage_rounded_product (buffer : List Byte) :
    ({ significand := 5775866522102661, scale := 53 } : RandomDraw).value * 800 < 513 ∧
    numberTimes { significand := 5775866522102661, scale := 53 } 800 = 513 ∧
    (processImage buffer { significand := 5775866522102661, scale := 53 } zeroDraw).width
      = 913 := by
  have hprod : numberTimes { significand := 5775866522102661, scale := 53 } 800 = 513 := by
    unfold numberTimes
    rw [nearestDouble_at (5775866522102661 * 800) (2 ^ 53) 9 (by decide) (by decide)
      (by norm_num) (by norm_num)]
    have h1 : (52 - max (9 : Int) (-1022)).toNat = 43 := by decide
    have h2 : (-(52 - max (9 : Int) (-1022))).toNat = 0 := by decide
    have h3 : -(52 - max (9 : Int) (-1022)) = -43 := by decide
    rw [h1, h2, h3]
    have h4 : roundHalfEven (5775866522102661 * 800 * 2 ^ 43) (2 ^ 53 * 2 ^ 0)
        = 4512395720392704 := by decide
    rw [h4]
    norm_num
  refine ⟨?_, hprod, ?_⟩
  · unfold RandomDraw.value
    norm_num
  · simp [processImage, hprod]

theorem valid_zeroDraw : zeroDraw.valid := by
  unfold RandomDraw.valid zeroDraw
  decide

theorem valid_largestDraw : largestDraw.valid := by
  unfold RandomDraw.valid largestDraw
  decide

/-- C11: for every pair of draws of `Math.random()`, doubles of the interval
from 0 (included) to 1 (excluded), the dimensions produced by `processImage`
are whole numbers with `400 ≤ width ≤ 1199` and `300 ≤ height ≤ 899`; the
lower bounds are attained at the draw 0 and the upper bounds at the largest
double below 1. -/
theorem C11_processImage_bounds (buffer : List Byte) (u v : RandomDraw)
    (hu : u.valid) (hv : v.valid) :
    (0 ≤ u.value ∧ u.value < 1 ∧ 0 ≤ v.value ∧ v.value < 1) ∧
    (400 ≤ (processImage buffer u v).width ∧ (processImage buffer u v).width ≤ 1199 ∧
     300 ≤ (processImage buffer u v).height ∧ (processImage buffer u v).height ≤ 899) ∧
    (∃ u0 v0 : RandomDraw, u0.valid ∧ v0.valid ∧
      processImage buffer u0 v0 = { width := 400, height := 300 }) ∧
    (∃ u1 v1 : RandomDraw, u1.valid ∧ v1.valid ∧
      processImage buffer u1 v1 = { width := 1199, height := 899 }) := by
  have hw := processImage_width buffer u v hu
  have hh := processImage_height buffer u v hv
  have hur := draw_value_range u hu
  have hvr := draw_value_range v hv
  exact ⟨⟨hur.1, hur.2, hvr.1, hvr.2⟩, ⟨hw.1, hw.2, hh.1, hh.2⟩,
    ⟨zeroDraw, zeroDraw, valid_zeroDraw, valid_zeroDraw, processImage_zero buffer⟩,
    ⟨largestDraw, largestDraw, valid_largestDraw, valid_largestDraw,
      processImage_top buffer⟩⟩

/-- The draws 1/2 and 1/4 on the sample content give a width between 400 and
1199 and a height between 300 and 899. -/
theorem C11_processImage_bounds_witness :
    400 ≤ (processImage samplePart.content
      { significand := 2 ^ 52, scale := 53 } { significand := 2 ^ 51, scale := 53 }).width ∧
    (processImage samplePart.content
      { significand := 2 ^ 52, scale := 53 } { significand := 2 ^ 51, scale := 53 }).width
      ≤ 1199 ∧
    300 ≤ (processImage samplePart.content
      { significand := 2 ^ 52, scale := 53 } { significand := 2 ^ 51, scale := 53 }).height ∧
    (processImage samplePart.content
      { significand := 2 ^ 52, scale := 53 } { significand := 2 ^ 51, scale := 53 }).height
      ≤ 899 :=
  (C11_processImage_bounds samplePart.content
    { significand := 2 ^ 52, scale := 53 } { significand := 2 ^ 51, scale := 53 }
    (by unfold RandomDraw.valid; decide) (by unfold RandomDraw.valid; decide)).2.1

/-! ## Records of stores reached by requests -/

/-- A property of records that holds of every record an accepted upload
stores is kept by every request. -/
theorem handle_all (P : ImageRecord → Prop)
    (hnew : ∀ (s : ImageStore) (file : FilePart) (now : String) (dimensions : Dimensions),
      P (uploadedRecord s file now dimensions))
    (s : ImageStore) (r : Request) (h : ∀ img ∈ s.images, P img) :
    ∀ img ∈ (handle s r).2.images, P img := by
  cases r with
  | upload part now dimensions =>
    rcases postUpload_cases s part now dimensions with ⟨_, hsame⟩ | ⟨file, _, heq⟩
    · simp only [handle]
      rw [hsame]
      exact h
    · simp only [handle]
      rw [heq]
      intro img himg
      simp only [List.mem_append, List.mem_singleton] at himg
      rcases himg with himg | himg
      · exact h img himg
      · subst himg
        exact hnew s file now dimensions
  | delete id =>
    simp only [handle]
    rw [deleteImage_store, delete_eq]
    intro img himg
    exact h img ((List.eraseP_sublist s.images).subset himg)

theorem serve_all (P : ImageRecord → Prop)
    (hnew : ∀ (s : ImageStore) (file : FilePart) (now : String) (dimensions : Dimensions),
      P (uploadedRecord s file now dimensions))
    (requests : List Request) :
    ∀ (s : ImageStore), (∀ img ∈ s.images, P img) →
      ∀ img ∈ (serve s requests).images, P img := by
  induction requests with
  | nil => intro s h; exact h
  | cons r rest ih =>
    intro s h
    have h1 := handle_all P hnew s r h
    have h2 := ih (handle s r).2 h1
    simpa [serve] using h2

/-- C12: in every store reached from the empty store by completed upload and
delete requests, each handled as one step, every stored record has its
dimensions present; so has every record that `get` returns and every view
that `getAll` lists. -/
theorem C12_dimensions_present (requests : List Request) :
    (∀ img ∈ (serve ImageStore.new requests).images, img.dimensions.isSome = true) ∧
    (∀ (id : String) (r : ImageRecord),
      (serve ImageStore.new requests).get id = some r → r.dimensions.isSome = true) ∧
    (∀ view ∈ (serve ImageStore.new requests).getAll, view.dimensions.isSome = true) := by
  have hall : ∀ img ∈ (serve ImageStore.new requests).images,
      img.dimensions.isSome = true :=
    serve_all (fun img => img.dimensions.isSome = true)
      (fun _ _ _ _ => rfl) requests ImageStore.new
      (by intro img himg; simp [ImageStore.new] at himg)
  refine ⟨hall, ?_, ?_⟩
  · intro id r hget
    exact hall r (List.mem_of_find?_eq_some hget)
  · intro view hview
    simp only [ImageStore.getAll, List.mem_map] at hview
    obtain ⟨img, himg, rfl⟩ := hview
    exact hall img himg

/-- C13: the record `add` creates has the `size` and the `data` of its
argument, the argument built by `POST /upload` has `size` equal to the length
of its buffer, and so in every store reached from the empty store by completed
requests the `size` of every record is the byte length of its `data`. -/
theorem C13_size_is_data_length (requests : List Request) :
    (∀ img ∈ (serve ImageStore.new requests).images, img.size = img.data.length) ∧
    (∀ (s : ImageStore) (image : ImageInput) (now : String),
      (s.add image now).1.size = image.size ∧ (s.add image now).1.data = image.buffer) ∧
    (∀ (part : Option FilePart) (file : MulterFile),
      uploadSingle part = .ok (some file) → file.size = file.buffer.length) ∧
    (∀ (s : ImageStore) (part : Option FilePart) (now : String) (dimensions : Dimensions)
      (view : PublicView) (message : String),
      (postUpload s part now dimensions).1 = { status := 201, body := .uploaded view message } →
      ∃ r ∈ (postUpload s part now dimensions).2.images,
        r.id = view.id ∧ view.size = r.size ∧ r.size = r.data.length) := by
  refine ⟨?_, ?_, ?_, ?_⟩
  · exact serve_all (fun img => img.size = img.data.length)
      (fun _ _ _ _ => rfl) requests ImageStore.new
      (by intro img himg; simp [ImageStore.new] at himg)
  · intro s image now
    exact ⟨rfl, rfl⟩
  · intro part file hup
    cases part with
    | none => simp [uploadSingle] at hup
    | some p =>
      unfold uploadSingle at hup
      simp only at hup
      cases hf : fileFilter p with
      | error e => simp [hf] at hup
      | ok b =>
        simp only [hf] at hup
        by_cases hlen : p.content.length > fileSize
        · simp [hlen] at hup
        · simp only [hlen, if_false] at hup
          injection hup with h
          injection h with h
          subst h
          rfl
  · intro s part now dimensions view message hup
    rcases postUpload_cases s part now dimensions with ⟨hstatus, _⟩ | ⟨file, _, heq⟩
    · rw [hup] at hstatus
      exact absurd rfl hstatus
    · rw [heq] at hup
      have hview : view = toPublicView (uploadedRecord s file now dimensions) := by
        injection hup with _ hbody
        injection hbody with hv _
        exact hv.symm
      rw [heq, hview]
      exact ⟨uploadedRecord s file now dimensions, by simp, rfl, rfl, rfl⟩

/-! ## The body of the upload response -/

/-- C14 (the code at the failing input): the upload of the repository's test,
`test.jpg` of type `image/jpeg` with fifteen bytes, is valid and is answered
with status 201, but the body is the object with the properties `success`,
`data` and `message`: the id 1 and the file name `test.jpg` are properties of
`data`, and neither `id` nor `filename` is a property of the body itself. -/
theorem C14_upload_body_at_test_input :
    testUpload.mimetype ∈ allowedTypes ∧ testUpload.content.length ≤ fileSize ∧
    (postUpload ImageStore.new (some testUpload) "2024-01-01T00:00:00.000Z"
      { width := 640, height := 480 }).1 =
      { status := 201
        body := .uploaded
          { id := 1, filename := "test.jpg", mimeType := "image/jpeg", size := 15,
            uploadedAt := "2024-01-01T00:00:00.000Z",
            dimensions := some { width := 640, height := 480 } }
          "Image uploaded successfully" } ∧
    (postUpload ImageStore.new (some testUpload) "2024-01-01T00:00:00.000Z"
      { width := 640, height := 480 }).1.body.properties = ["success", "data", "message"] ∧
    "id" ∉ (postUpload ImageStore.new (some testUpload) "2024-01-01T00:00:00.000Z"
      { width := 640, height := 480 }).1.body.properties ∧
    "filename" ∉ (postUpload ImageStore.new (some testUpload) "2024-01-01T00:00:00.000Z"
      { width := 640, height := 480 }).1.body.properties := by
  decide

/-- Every valid upload (a file is present, its type is in the allow-list, its
length is within the size limit) is answered with status 201 and the body with
the properties `success`, `data` and `message`, where `data` carries the id
the store assigned and the original name of the file. -/
theorem postUpload_valid_response (s : ImageStore) (file : FilePart) (now : String)
    (dimensions : Dimensions)
    (htype : file.mimetype ∈ allowedTypes) (hsize : file.content.length ≤ fileSize) :
    ∃ view,
      (postUpload s (some file) now dimensions).1 =
        { status := 201, body := .uploaded view "Image uploaded successfully" } ∧
      (postUpload s (some file) now dimensions).1.body.properties =
        ["success", "data", "message"] ∧
      view.id = s.nextId ∧ view.filename = file.originalname ∧
      view.mimeType = file.mimetype ∧ view.size = file.content.length ∧
      view.uploadedAt = now ∧ view.dimensions = some dimensions := by
  have hup : uploadSingle (some file) = .ok (some
      { originalname := file.originalname, mimetype := file.mimetype,
        buffer := file.content, size := file.content.length }) := by
    have hlen : ¬ file.content.length > fileSize := by omega
    simp [uploadSingle, fileFilter, htype, hlen]
  refine ⟨toPublicView (uploadedRecord s file now dimensions), ?_, ?_, rfl, rfl, rfl, rfl,
    rfl, rfl⟩
  · simp [postUpload, hup, ImageStore.add, uploadedRecord, toPublicView]
  · simp [postUpload, hup, Body.properties]

end ImageGallery
